import Mathlib

/-!
Verification of the motioneye-client library (Python) against its
natural-language specification.  Python strings are modelled as `List Char`
(`PyStr`), bytes as `Nat` values below 256, and Python functions that can
raise become `Except`-valued Lean functions.  The URL-handling helpers of
`urllib.parse` (CPython) used by `motioneye_client/utils.py` and
`motioneye_client/client.py` are embedded alongside the repository's own
functions.
-/

/-- Python `str`, modelled as a list of unicode code points. -/
abbrev PyStr := List Char

/-- Errors raised by the modelled Python code. -/
inductive PyErr where
  /-- `ValueError` (raised by `urlsplit` on mismatched IPv6 brackets). -/
  | valueError : PyErr
  /-- `MotionEyeClientPathError` (raised on an empty media path). -/
  | pathError : PyErr
  /-- `MotionEyeClientURLParseError` (raised on a base URL without scheme or host). -/
  | urlParseError : PyErr
  deriving DecidableEq, Repr

/-- Split a list at the first occurrence of `c`: `some (before, after)` with the
delimiter dropped, or `none` when `c` does not occur.  Mirrors the
`s.find(c)` / slicing idiom of CPython's `urllib.parse`. -/
def splitFirst (c : Char) : PyStr → Option (PyStr × PyStr)
  | [] => none
  | x :: xs =>
    if x = c then some ([], xs)
    else (splitFirst c xs).map (fun p => (x :: p.1, p.2))

/-- Python `s.split(c)`: always returns at least one (possibly empty) piece. -/
def splitOn (c : Char) : PyStr → List PyStr
  | [] => [[]]
  | x :: xs =>
    if x = c then [] :: splitOn c xs
    else match splitOn c xs with
      | [] => [[x]]
      | p :: ps => (x :: p) :: ps

/-- Python `sep.join(pieces)`. -/
def joinSep (sep : PyStr) : List PyStr → PyStr
  | [] => []
  | [x] => x
  | x :: xs => x ++ sep ++ joinSep sep xs

/-- Truncate to 32 bits. -/
def w32 (n : Nat) : Nat := n % 4294967296

/-- Rotate a 32-bit word left by `k` bits. -/
def rotl32 (k n : Nat) : Nat := w32 ((n <<< k) ||| (n >>> (32 - k)))

/-- 32-bit bitwise complement. -/
def compl32 (n : Nat) : Nat := 4294967295 - n

/-- One SHA-1 round: `i` is the round index, `w` the schedule word. -/
def sha1Round (i w : Nat) : Nat × Nat × Nat × Nat × Nat → Nat × Nat × Nat × Nat × Nat :=
  fun (a, b, c, d, e) =>
    let f :=
      if i < 20 then (b &&& c) ||| (compl32 b &&& d)
      else if i < 40 then b ^^^ c ^^^ d
      else if i < 60 then (b &&& c) ||| (b &&& d) ||| (c &&& d)
      else b ^^^ c ^^^ d
    let k :=
      if i < 20 then 1518500249
      else if i < 40 then 1859775393
      else if i < 60 then 2400959708
      else 3395469782
    let temp := w32 (rotl32 5 a + f + e + k + w)
    (temp, a, rotl32 30 b, c, d)

/-- Extend 16 message words to the 80-word SHA-1 schedule.  The accumulator is
kept reversed, so `w[t-3]`, `w[t-8]`, `w[t-14]`, `w[t-16]` are at positions
2, 7, 13, 15. -/
def sha1Extend : Nat → List Nat → List Nat
  | 0, acc => acc.reverse
  | n + 1, acc =>
    let wnew := rotl32 1 ((acc.getD 2 0) ^^^ (acc.getD 7 0) ^^^ (acc.getD 13 0) ^^^ (acc.getD 15 0))
    sha1Extend n (wnew :: acc)

/-- Run the 80 SHA-1 rounds of one chunk over the given schedule. -/
def sha1Rounds (i : Nat) (ws : List Nat) (st : Nat × Nat × Nat × Nat × Nat) :
    Nat × Nat × Nat × Nat × Nat :=
  match ws with
  | [] => st
  | w :: ws => sha1Rounds (i + 1) ws (sha1Round i w st)

/-- Pack four big-endian bytes into a 32-bit word. -/
def word32OfBytes : List Nat → Nat
  | b0 :: b1 :: b2 :: b3 :: _ => ((b0 * 256 + b1) * 256 + b2) * 256 + b3
  | _ => 0

/-- Split a byte list into the 16 big-endian words of a 64-byte chunk. -/
def chunkWords (chunk : List Nat) : List Nat :=
  (List.range 16).map (fun i => word32OfBytes (chunk.drop (4 * i)))

/-- Group a byte list into 64-byte chunks (the first argument is fuel, which
`chunks64` instantiates with the length of the list). -/
def chunks64Aux : Nat → List Nat → List (List Nat)
  | _, [] => []
  | 0, _ => []
  | fuel + 1, x :: xs => (x :: xs).take 64 :: chunks64Aux fuel ((x :: xs).drop 64)

/-- Group a byte list into 64-byte chunks. -/
def chunks64 (l : List Nat) : List (List Nat) := chunks64Aux l.length l

/-- Process one 64-byte chunk, updating the five hash registers. -/
def sha1Chunk (h : Nat × Nat × Nat × Nat × Nat) (chunk : List Nat) :
    Nat × Nat × Nat × Nat × Nat :=
  let w16 := chunkWords chunk
  let ws := sha1Extend 64 w16.reverse
  let (a, b, c, d, e) := sha1Rounds 0 ws h
  let (h0, h1, h2, h3, h4) := h
  (w32 (h0 + a), w32 (h1 + b), w32 (h2 + c), w32 (h3 + d), w32 (h4 + e))

/-- Big-endian 8-byte encoding of a natural number. -/
def be64 (n : Nat) : List Nat :=
  [n >>> 56 &&& 255, n >>> 48 &&& 255, n >>> 40 &&& 255, n >>> 32 &&& 255,
   n >>> 24 &&& 255, n >>> 16 &&& 255, n >>> 8 &&& 255, n &&& 255]

/-- SHA-1 padding: `0x80`, zeros to 56 mod 64, then the bit length. -/
def sha1Pad (msg : List Nat) : List Nat :=
  let len := msg.length
  let zeros := (119 - (len % 64)) % 64
  msg ++ 128 :: List.replicate zeros 0 ++ be64 (8 * len)

/-- SHA-1 of a byte string, as the 20 digest bytes. -/
def sha1Bytes (msg : List Nat) : List Nat :=
  let init : Nat × Nat × Nat × Nat × Nat :=
    (1732584193, 4023233417, 2562383102, 271733878, 3285377520)
  let h := (chunks64 (sha1Pad msg)).foldl sha1Chunk init
  [h.1 >>> 24 &&& 255, h.1 >>> 16 &&& 255, h.1 >>> 8 &&& 255, h.1 &&& 255,
   h.2.1 >>> 24 &&& 255, h.2.1 >>> 16 &&& 255, h.2.1 >>> 8 &&& 255, h.2.1 &&& 255,
   h.2.2.1 >>> 24 &&& 255, h.2.2.1 >>> 16 &&& 255, h.2.2.1 >>> 8 &&& 255, h.2.2.1 &&& 255,
   h.2.2.2.1 >>> 24 &&& 255, h.2.2.2.1 >>> 16 &&& 255, h.2.2.2.1 >>> 8 &&& 255,
   h.2.2.2.1 &&& 255,
   h.2.2.2.2 >>> 24 &&& 255, h.2.2.2.2 >>> 16 &&& 255, h.2.2.2.2 >>> 8 &&& 255,
   h.2.2.2.2 &&& 255]

/-- Lowercase hexadecimal digit for a value below 16. -/
def hexDigitLower (n : Nat) : Char :=
  if n < 10 then Char.ofNat (48 + n) else Char.ofNat (87 + n)

/-- Lowercase hexadecimal rendering of a byte list (Python `hexdigest()`). -/
def bytesToHexLower (bs : List Nat) : PyStr :=
  bs.flatMap (fun b => [hexDigitLower (b / 16), hexDigitLower (b % 16)])

/-- UTF-8 encoding of one code point. -/
def utf8EncodeChar (c : Char) : List Nat :=
  let n := c.toNat
  if n < 128 then [n]
  else if n < 2048 then [192 + n / 64, 128 + n % 64]
  else if n < 65536 then [224 + n / 4096, 128 + (n / 64) % 64, 128 + n % 64]
  else [240 + n / 262144, 128 + (n / 4096) % 64, 128 + (n / 64) % 64, 128 + n % 64]

/-- Python `s.encode("UTF-8")`. -/
def utf8Encode (s : PyStr) : List Nat := s.flatMap utf8EncodeChar

/-- `hashlib.sha1(s.encode("UTF-8")).hexdigest()`. -/
def sha1HexOfStr (s : PyStr) : PyStr := bytesToHexLower (sha1Bytes (utf8Encode s))

/-- Prefix test for lists (`str.startswith`): `listStartsWith p s` holds when
`p` is an initial segment of `s`. -/
def listStartsWith : PyStr → PyStr → Bool
  | [], _ => true
  | _ :: _, [] => false
  | x :: xs, y :: ys => x == y && listStartsWith xs ys

/-- C0 control characters and space (WHATWG), stripped from the front of URLs
by modern CPython `urlsplit`. -/
def isC0OrSpace (c : Char) : Bool := c.toNat ≤ 32

/-- The unsafe URL bytes `\t`, `\r`, `\n` removed everywhere by `urlsplit`. -/
def isTabCrLf (c : Char) : Bool := c == '\t' || c == '\r' || c == '\n'

/-- Strip leading C0-control/space characters. -/
def lstripWS : PyStr → PyStr
  | [] => []
  | c :: cs => if isC0OrSpace c then lstripWS cs else c :: cs

/-- Strip trailing C0-control/space characters. -/
def rstripWS (s : PyStr) : PyStr := (lstripWS s.reverse).reverse

/-- Remove every tab, carriage return and newline. -/
def removeTabCrLf (s : PyStr) : PyStr := s.filter (fun c => !isTabCrLf c)

/-- The URL sanitization performed at the top of CPython `urlsplit`. -/
def sanitizeUrl (s : PyStr) : PyStr := removeTabCrLf (lstripWS s)

/-- The sanitization applied to the default-scheme argument of `urlsplit`. -/
def sanitizeScheme (s : PyStr) : PyStr := removeTabCrLf (rstripWS (lstripWS s))

/-- CPython `scheme_chars`. -/
def isSchemeChar (c : Char) : Bool :=
  c.isAlpha || c.isDigit || c == '+' || c == '-' || c == '.'

/-- Whether the first character is an ASCII letter. -/
def headIsAlpha : PyStr → Bool
  | [] => false
  | c :: _ => c.isAlpha

/-- `str.lower()` (adequate for the ASCII scheme names involved). -/
def lowerStr (s : PyStr) : PyStr := s.map Char.toLower

/-- Scheme phase of `urlsplit`: take everything before the first `:` as the
scheme when it is a nonempty run of scheme characters starting with an ASCII
letter; otherwise keep the default scheme. -/
def splitScheme (dflt u : PyStr) : PyStr × PyStr :=
  match splitFirst ':' u with
  | some (pre, rest) =>
    if !pre.isEmpty && headIsAlpha pre && pre.all isSchemeChar then (lowerStr pre, rest)
    else (dflt, u)
  | none => (dflt, u)

/-- Characters terminating the netloc portion of a URL. -/
def isNetlocDelim (c : Char) : Bool := c == '/' || c == '?' || c == '#'

/-- Netloc phase of `urlsplit`: after a leading `//`, the netloc reaches to the
first `/`, `?` or `#`; mismatched square brackets raise `ValueError`. -/
def splitNetloc : PyStr → Except PyErr (PyStr × PyStr)
  | c1 :: c2 :: rest =>
    if c1 == '/' && c2 == '/' then
      let nl := rest.takeWhile (fun c => !isNetlocDelim c)
      let r := rest.dropWhile (fun c => !isNetlocDelim c)
      if (nl.contains '[' && !nl.contains ']') || (nl.contains ']' && !nl.contains '[') then
        .error .valueError
      else .ok (nl, r)
    else .ok ([], c1 :: c2 :: rest)
  | u => .ok ([], u)

/-- Fragment phase: split at the first `#`, empty fragment when absent. -/
def splitFragment (u : PyStr) : PyStr × PyStr :=
  match splitFirst '#' u with
  | some (a, f) => (a, f)
  | none => (u, [])

/-- Query phase: split at the first `?`, empty query when absent. -/
def splitQuery (u : PyStr) : PyStr × PyStr :=
  match splitFirst '?' u with
  | some (a, q) => (a, q)
  | none => (u, [])

/-- The five URL components returned by `urllib.parse.urlsplit`. -/
structure UrlParts where
  scheme : PyStr
  netloc : PyStr
  path : PyStr
  query : PyStr
  fragment : PyStr
  deriving DecidableEq, Repr

/-- `urllib.parse.urlsplit(u, dflt)` (CPython 3.11, with its URL
sanitization).  Of the netloc validation only the mismatched-bracket
`ValueError` is modelled; the detailed `_check_bracketed_host` IPv6 parse and
the NFKC `_checknetloc` check (both of which can only raise on even more
unusual netlocs) are not. -/
def urlsplit (dflt u : PyStr) : Except PyErr UrlParts :=
  let u1 := sanitizeUrl u
  let d1 := sanitizeScheme dflt
  let sr := splitScheme d1 u1
  match splitNetloc sr.2 with
  | .error e => .error e
  | .ok (netloc, r2) =>
    let pf := splitFragment r2
    let pq := splitQuery pf.1
    .ok ⟨sr.1, netloc, pq.1, pq.2, pf.2⟩

/-- Whether a string begins with `//`. -/
def startsWithTwoSlashes : PyStr → Bool
  | c1 :: c2 :: _ => c1 == '/' && c2 == '/'
  | _ => false

/-- Whether a string begins with `/`. -/
def startsWithSlash : PyStr → Bool
  | c :: _ => c == '/'
  | _ => false

/-- `urllib.parse.uses_netloc` (CPython 3.11). -/
def uses_netloc : List PyStr :=
  ["", "ftp", "http", "gopher", "nntp", "telnet", "imap", "wais", "file", "mms",
   "https", "shttp", "snews", "prospero", "rtsp", "rtsps", "rtspu", "rsync",
   "svn", "svn+ssh", "sftp", "nfs", "git", "git+ssh", "ws", "wss"].map String.toList

/-- `urllib.parse.uses_relative` (CPython 3.11). -/
def uses_relative : List PyStr :=
  ["", "ftp", "http", "gopher", "nntp", "imap", "wais", "file", "https",
   "shttp", "mms", "prospero", "rtsp", "rtsps", "rtspu", "sftp", "svn",
   "svn+ssh", "ws", "wss"].map String.toList

/-- `urllib.parse.uses_params` (CPython 3.11). -/
def uses_params : List PyStr :=
  ["", "ftp", "hdl", "prospero", "http", "imap", "https", "shttp", "rtsp",
   "rtsps", "rtspu", "sip", "sips", "mms", "sftp", "tel"].map String.toList

/-- `urllib.parse.urlunsplit` (CPython 3.11: the `//` marker is restored when
there is a netloc, or when a known-netloc scheme is present and the path does
not already begin with `//`). -/
def urlunsplit (p : UrlParts) : PyStr :=
  let url := p.path
  let url :=
    if !p.netloc.isEmpty ||
        (!p.scheme.isEmpty && uses_netloc.contains p.scheme && !startsWithTwoSlashes url) then
      '/' :: '/' :: p.netloc ++ (if !url.isEmpty && !startsWithSlash url then '/' :: url else url)
    else url
  let url := if p.scheme.isEmpty then url else p.scheme ++ ':' :: url
  let url := if p.query.isEmpty then url else url ++ '?' :: p.query
  let url := if p.fragment.isEmpty then url else url ++ '#' :: p.fragment
  url

/-- Whether a character is ASCII. -/
def isAsciiChar (c : Char) : Bool := c.toNat < 128

/-- Maximal runs of characters sharing their ASCII/non-ASCII status, tagged
with that status (the `_asciire.split` decomposition inside `unquote`). -/
def asciiRuns : PyStr → List (Bool × PyStr)
  | [] => []
  | c :: cs =>
    match asciiRuns cs with
    | (b, run) :: rest =>
      if b = isAsciiChar c then (b, c :: run) :: rest
      else (isAsciiChar c, [c]) :: (b, run) :: rest
    | [] => [(isAsciiChar c, [c])]

/-- Hexadecimal digit value of a character, when it is one. -/
def hexVal : Char → Option Nat := fun c =>
  let n := c.toNat
  if 48 ≤ n && n ≤ 57 then some (n - 48)
  else if 65 ≤ n && n ≤ 70 then some (n - 55)
  else if 97 ≤ n && n ≤ 102 then some (n - 87)
  else none

/-- `urllib.parse.unquote_to_bytes` on an ASCII run: split at `%`, turn each
valid two-digit hex escape into a byte, and keep invalid escapes literally. -/
def percentDecodeBytes (s : PyStr) : List Nat :=
  match splitOn '%' s with
  | [] => []
  | p0 :: ps =>
    p0.map Char.toNat ++
      ps.flatMap (fun item =>
        match item with
        | c1 :: c2 :: rest =>
          match hexVal c1, hexVal c2 with
          | some h1, some h2 => (16 * h1 + h2) :: rest.map Char.toNat
          | _, _ => 37 :: item.map Char.toNat
        | _ => 37 :: item.map Char.toNat)

/-- A UTF-8 continuation byte. -/
def isUtf8Cont (b : Nat) : Bool := 128 ≤ b && b ≤ 191

/-- Valid second byte of a three-byte UTF-8 sequence led by `b`. -/
def utf8Second3 (b c1 : Nat) : Bool :=
  if b = 224 then 160 ≤ c1 && c1 ≤ 191
  else if b = 237 then 128 ≤ c1 && c1 ≤ 159
  else isUtf8Cont c1

/-- Valid second byte of a four-byte UTF-8 sequence led by `b`. -/
def utf8Second4 (b c1 : Nat) : Bool :=
  if b = 240 then 144 ≤ c1 && c1 ≤ 191
  else if b = 244 then 128 ≤ c1 && c1 ≤ 143
  else isUtf8Cont c1

/-- U+FFFD, the replacement character. -/
def replChar : Char := Char.ofNat 65533

/-- UTF-8 decoding with `errors="replace"`, fuelled: each maximal invalid
subsequence becomes one U+FFFD (CPython's decoder).  The fuel only needs to
bound the number of decoded characters; `utf8DecodeReplace` passes the length
of the byte list. -/
def utf8DecodeReplaceAux : Nat → List Nat → PyStr
  | 0, _ => []
  | _ + 1, [] => []
  | fuel + 1, b :: bs =>
    if b < 128 then Char.ofNat b :: utf8DecodeReplaceAux fuel bs
    else if 194 ≤ b && b ≤ 223 then
      match bs with
      | c1 :: bs1 =>
        if isUtf8Cont c1 then
          Char.ofNat ((b - 192) * 64 + (c1 - 128)) :: utf8DecodeReplaceAux fuel bs1
        else replChar :: utf8DecodeReplaceAux fuel bs
      | [] => [replChar]
    else if 224 ≤ b && b ≤ 239 then
      match bs with
      | c1 :: bs1 =>
        if utf8Second3 b c1 then
          match bs1 with
          | c2 :: bs2 =>
            if isUtf8Cont c2 then
              Char.ofNat ((b - 224) * 4096 + (c1 - 128) * 64 + (c2 - 128)) ::
                utf8DecodeReplaceAux fuel bs2
            else replChar :: utf8DecodeReplaceAux fuel bs1
          | [] => [replChar]
        else replChar :: utf8DecodeReplaceAux fuel bs
      | [] => [replChar]
    else if 240 ≤ b && b ≤ 244 then
      match bs with
      | c1 :: bs1 =>
        if utf8Second4 b c1 then
          match bs1 with
          | c2 :: bs2 =>
            if isUtf8Cont c2 then
              match bs2 with
              | c3 :: bs3 =>
                if isUtf8Cont c3 then
                  Char.ofNat ((b - 240) * 262144 + (c1 - 128) * 4096 + (c2 - 128) * 64 + (c3 - 128)) ::
                    utf8DecodeReplaceAux fuel bs3
                else replChar :: utf8DecodeReplaceAux fuel bs2
              | [] => [replChar]
            else replChar :: utf8DecodeReplaceAux fuel bs1
          | [] => [replChar]
        else replChar :: utf8DecodeReplaceAux fuel bs
      | [] => [replChar]
    else replChar :: utf8DecodeReplaceAux fuel bs

/-- UTF-8 decoding with `errors="replace"` (CPython's decoder). -/
def utf8DecodeReplace (l : List Nat) : PyStr := utf8DecodeReplaceAux l.length l

/-- `urllib.parse.unquote(s, encoding="utf-8", errors="replace")`: percent
escapes are decoded within each maximal ASCII run; non-ASCII characters pass
through untouched. -/
def unquote (s : PyStr) : PyStr :=
  if s.contains '%' then
    (asciiRuns s).flatMap (fun r =>
      if r.1 then utf8DecodeReplace (percentDecodeBytes r.2) else r.2)
  else s

/-- Python `s.replace("+", " ")`, applied to names and values by `parse_qsl`. -/
def plusToSpace (s : PyStr) : PyStr := s.map (fun c => if c = '+' then ' ' else c)

/-- One `name=value` field of a query string, as parsed by `parse_qsl` with
`keep_blank_values=True`: empty fields are skipped, a field without `=` gets
an empty value, and both sides are `+`-unescaped and percent-unquoted. -/
def parseNameValue (nv : PyStr) : Option (PyStr × PyStr) :=
  if nv.isEmpty then none
  else
    let p := match splitFirst '=' nv with
      | some (n, v) => (n, v)
      | none => (nv, [])
    some (unquote (plusToSpace p.1), unquote (plusToSpace p.2))

/-- `urllib.parse.parse_qsl(qs, keep_blank_values=True)`. -/
def parse_qsl (qs : PyStr) : List (PyStr × PyStr) :=
  if qs.isEmpty then [] else (splitOn '&' qs).filterMap parseNameValue

/-- The characters never escaped by `urllib.parse.quote` (`ALWAYS_SAFE`
minus the extra `safe` argument): ASCII letters, digits, `_.-~`. -/
def isAlwaysSafe (c : Char) : Bool :=
  c.isAlpha || c.isDigit || c == '_' || c == '.' || c == '-' || c == '~'

/-- Uppercase hexadecimal digit for a value below 16. -/
def hexDigitUpper (n : Nat) : Char :=
  if n < 10 then Char.ofNat (48 + n) else Char.ofNat (55 + n)

/-- `urllib.parse.quote(s, safe)`: UTF-8 encode, keep safe ASCII bytes, and
percent-encode the rest with uppercase hex. -/
def quote (s : PyStr) (safe : PyStr) : PyStr :=
  (utf8Encode s).flatMap (fun b =>
    if b < 128 && (isAlwaysSafe (Char.ofNat b) || safe.contains (Char.ofNat b)) then
      [Char.ofNat b]
    else ['%', hexDigitUpper (b / 16), hexDigitUpper (b % 16)])

/-- The `safe` set `"!'()*~"` used by `compute_signature` to match JavaScript's
`encodeURIComponent`. -/
def jsSafe : PyStr := ['!', Char.ofNat 39, '(', ')', '*', '~']

/-- Strict lexicographic comparison of strings by code point (Python `<`). -/
def lexLt : PyStr → PyStr → Bool
  | [], [] => false
  | [], _ :: _ => true
  | _ :: _, [] => false
  | x :: xs, y :: ys =>
    if x.toNat < y.toNat then true
    else if y.toNat < x.toNat then false
    else lexLt xs ys

/-- Stable insertion of a pair into a name-sorted association list: the new
(originally earlier) pair goes before pairs of equal name. -/
def insertByName (p : PyStr × PyStr) : List (PyStr × PyStr) → List (PyStr × PyStr)
  | [] => [p]
  | q :: qs => if lexLt q.1 p.1 then q :: insertByName p qs else p :: q :: qs

/-- Python `list.sort(key=lambda q: q[0])`: a stable sort by pair name. -/
def sortByName (l : List (PyStr × PyStr)) : List (PyStr × PyStr) :=
  l.foldr insertByName []

/-- The name `_signature`. -/
def sigName : PyStr := "_signature".toList

/-- Characters kept by `_SIGNATURE_REGEX`, the filter of
`motioneye_client/utils.py`: `[a-zA-Z0-9/?_.=&{}[]":, -]`. -/
def signatureSafeChar (c : Char) : Bool :=
  c.isAlpha || c.isDigit || "/?_.=&\x7b\x7d[]\":, -".toList.contains c

/-- `_SIGNATURE_REGEX.sub("-", s)`: every unsafe character becomes `-`. -/
def signatureRegexSub (s : PyStr) : PyStr :=
  s.map (fun c => if signatureSafeChar c then c else '-')

/-- The string `---` that marks a file-attachment body. -/
def threeDashes : PyStr := ['-', '-', '-']

/-- The query-string half of the `compute_signature` canonicalization
(`motioneye_client/utils.py:40-48`): parse, drop `_signature` parameters,
sort stably by name, re-encode values `encodeURIComponent`-style, and rejoin
with `&` and `=`. -/
def processQuery (q : PyStr) : PyStr :=
  let query := (parse_qsl q).filter (fun p => !(p.1 == sigName))
  let query := sortByName query
  let query_quoted := query.map (fun nv => (nv.1, quote nv.2 jsSafe))
  joinSep ['&'] (query_quoted.map (fun p => p.1 ++ '=' :: p.2))

/-- The canonicalization half of `compute_signature`
(`motioneye_client/utils.py:39-51`): split the URL, canonicalize the query
string, and reassemble with scheme and netloc blanked. -/
def canonical_path_and_query (url : PyStr) : Except PyErr PyStr :=
  match urlsplit [] url with
  | .error e => .error e
  | .ok parts =>
    .ok (urlunsplit ⟨[], [], parts.path, processQuery parts.query, parts.fragment⟩)

/-- `motioneye_client.utils.compute_signature(method, path, body, key)`. -/
def compute_signature (method url : PyStr) (body : Option PyStr) (key : PyStr) :
    Except PyErr PyStr :=
  match canonical_path_and_query url with
  | .error e => .error e
  | .ok cpath =>
    let path := signatureRegexSub cpath
    let key := signatureRegexSub key
    -- `if body and body.startswith("---"): body = None`
    let body : Option PyStr := match body with
      | some b => if !b.isEmpty && listStartsWith threeDashes b then none else some b
      | none => none
    -- `body = body and _SIGNATURE_REGEX.sub("-", body)`
    let body : Option PyStr := match body with
      | some b => if b.isEmpty then some b else some (signatureRegexSub b)
      | none => none
    -- `"%s:%s:%s:%s" % (method, path, body or "", key)`, SHA-1, lowercase hex
    let bodyStr := match body with
      | some b => b
      | none => []
    .ok (lowerStr (sha1HexOfStr (method ++ ':' :: path ++ ':' :: bodyStr ++ ':' :: key)))

-- A decidable equality for `Except`, used to evaluate modelled Python calls
-- in witnesses and counterexamples.
deriving instance DecidableEq for Except

theorem splitFirst_eq_none {c : Char} {xs : PyStr} (h : c ∉ xs) : splitFirst c xs = none := by
  induction xs with
  | nil => rfl
  | cons x xs ih =>
    simp only [List.mem_cons, not_or] at h
    simp [splitFirst, Ne.symm h.1, ih h.2]

theorem splitFirst_some_spec {c : Char} {xs a b : PyStr}
    (h : splitFirst c xs = some (a, b)) : xs = a ++ c :: b ∧ c ∉ a := by
  induction xs generalizing a b with
  | nil => simp [splitFirst] at h
  | cons x xs ih =>
    by_cases hx : x = c
    · subst hx
      simp [splitFirst] at h
      obtain ⟨ha, hb⟩ := h
      subst ha
      subst hb
      simp
    · simp only [splitFirst, if_neg hx] at h
      match hsf : splitFirst c xs with
      | none => rw [hsf] at h; simp at h
      | some (a', b') =>
        rw [hsf] at h
        simp at h
        obtain ⟨ha, hb⟩ := h
        subst hb
        obtain ⟨hxs, hmem⟩ := ih hsf
        constructor
        · rw [← ha, hxs]; rfl
        · rw [← ha]
          simp only [List.mem_cons, not_or]
          exact ⟨fun hc => hx hc.symm, hmem⟩

theorem splitFirst_append_not_mem {c : Char} {xs : PyStr} (h : c ∉ xs) (ys : PyStr) :
    splitFirst c (xs ++ ys) = (splitFirst c ys).map (fun p => (xs ++ p.1, p.2)) := by
  induction xs with
  | nil =>
    simp only [List.nil_append]
    cases splitFirst c ys <;> simp
  | cons x xs ih =>
    simp only [List.mem_cons, not_or] at h
    have hxc : ¬x = c := fun hc => h.1 hc.symm
    rw [List.cons_append, splitFirst, if_neg hxc, ih h.2]
    cases splitFirst c ys <;> simp

theorem splitFirst_append_delim {c : Char} {xs : PyStr} (h : c ∉ xs) (ys : PyStr) :
    splitFirst c (xs ++ c :: ys) = some (xs, ys) := by
  rw [splitFirst_append_not_mem h]
  simp [splitFirst]

theorem splitFirst_append_of_some {c : Char} {xs a b : PyStr}
    (h : splitFirst c xs = some (a, b)) (ys : PyStr) :
    splitFirst c (xs ++ ys) = some (a, b ++ ys) := by
  obtain ⟨hxs, hmem⟩ := splitFirst_some_spec h
  subst hxs
  rw [List.append_assoc, List.cons_append, splitFirst_append_delim hmem]

theorem splitOn_ne_nil (c : Char) (xs : PyStr) : splitOn c xs ≠ [] := by
  induction xs with
  | nil => simp [splitOn]
  | cons x xs ih =>
    by_cases hx : x = c
    · simp [splitOn, hx]
    · simp only [splitOn, if_neg hx]
      match h : splitOn c xs with
      | [] => exact absurd h ih
      | p :: ps => simp

theorem splitOn_single {c : Char} {xs : PyStr} (h : c ∉ xs) : splitOn c xs = [xs] := by
  induction xs with
  | nil => rfl
  | cons x xs ih =>
    simp only [List.mem_cons, not_or] at h
    have hxc : ¬x = c := fun hc => h.1 hc.symm
    simp only [splitOn, if_neg hxc, ih h.2]

theorem splitOn_append (c : Char) (a b : PyStr) :
    splitOn c (a ++ c :: b) = splitOn c a ++ splitOn c b := by
  induction a with
  | nil => simp [splitOn]
  | cons x a ih =>
    by_cases hx : x = c
    · simp [splitOn, hx, ih]
    · simp only [List.cons_append, splitOn, if_neg hx, List.append_eq]
      rw [ih]
      match h : splitOn c a with
      | [] => exact absurd h (splitOn_ne_nil c a)
      | p :: ps => simp

theorem mem_of_mem_splitOn {c : Char} {q s : PyStr} {x : Char}
    (hs : s ∈ splitOn c q) (hx : x ∈ s) : x ∈ q := by
  induction q generalizing s with
  | nil =>
    simp [splitOn] at hs
    subst hs
    simp at hx
  | cons y q ih =>
    by_cases hy : y = c
    · rw [show splitOn c (y :: q) = [] :: splitOn c q by simp [splitOn, hy]] at hs
      rcases List.mem_cons.mp hs with h1 | h1
      · subst h1; simp at hx
      · exact List.mem_cons_of_mem _ (ih h1 hx)
    · simp only [splitOn, if_neg hy] at hs
      match h : splitOn c q with
      | [] => exact absurd h (splitOn_ne_nil c q)
      | p :: ps =>
        rw [h] at hs
        rcases List.mem_cons.mp hs with h1 | h1
        · subst h1
          rcases List.mem_cons.mp hx with h2 | h2
          · simp [h2]
          · exact List.mem_cons_of_mem _ (ih (h ▸ List.mem_cons_self _ _) h2)
        · exact List.mem_cons_of_mem _ (ih (h ▸ List.mem_cons_of_mem _ h1) hx)

theorem not_mem_of_mem_splitOn {c : Char} {q s : PyStr} (hs : s ∈ splitOn c q) : c ∉ s := by
  intro hx
  induction q generalizing s with
  | nil =>
    simp [splitOn] at hs
    subst hs
    simp at hx
  | cons y q ih =>
    by_cases hy : y = c
    · rw [show splitOn c (y :: q) = [] :: splitOn c q by simp [splitOn, hy]] at hs
      rcases List.mem_cons.mp hs with h1 | h1
      · subst h1; simp at hx
      · exact ih h1 hx
    · simp only [splitOn, if_neg hy] at hs
      match h : splitOn c q with
      | [] => exact absurd h (splitOn_ne_nil c q)
      | p :: ps =>
        rw [h] at hs
        rcases List.mem_cons.mp hs with h1 | h1
        · subst h1
          rcases List.mem_cons.mp hx with h2 | h2
          · exact hy h2.symm
          · exact ih (h ▸ List.mem_cons_self _ _) h2
        · exact ih (h ▸ List.mem_cons_of_mem _ h1) hx

theorem splitOn_filter {c : Char} {p : Char → Bool} (hp : p c = true) (q : PyStr) :
    splitOn c (q.filter p) = (splitOn c q).map (List.filter p) := by
  induction q with
  | nil => simp [splitOn]
  | cons y q ih =>
    by_cases hpy : p y = true
    · by_cases hy : y = c
      · subst hy
        simp [List.filter_cons, hpy, splitOn, ih]
      · simp only [List.filter_cons, hpy, if_true, splitOn, if_neg hy]
        rw [ih]
        match h : splitOn c q with
        | [] => exact absurd h (splitOn_ne_nil c q)
        | p0 :: ps => simp [List.filter_cons, hpy]
    · have hpy' : p y = false := by simpa using hpy
      have hyc : ¬y = c := fun he => by rw [he] at hpy; exact hpy hp
      rw [List.filter_cons]
      simp only [hpy', Bool.false_eq_true, if_false, splitOn, if_neg hyc]
      rw [ih]
      match h : splitOn c q with
      | [] => exact absurd h (splitOn_ne_nil c q)
      | p0 :: ps => simp [List.filter_cons, hpy']

theorem filter_joinSep {c : Char} {p : Char → Bool} (hp : p c = true) (L : List PyStr) :
    (joinSep [c] L).filter p = joinSep [c] (L.map (List.filter p)) := by
  induction L with
  | nil => rfl
  | cons x xs ih =>
    match xs with
    | [] => rfl
    | y :: ys =>
      have hj : joinSep [c] (x :: y :: ys) = x ++ c :: joinSep [c] (y :: ys) := by
        simp [joinSep]
      rw [hj, List.filter_append, List.filter_cons, ih]
      simp only [hp, if_true, List.map_cons]
      simp [joinSep]

theorem splitOn_joinSep {c : Char} {L : List PyStr} (hL : L ≠ [])
    (h : ∀ s ∈ L, c ∉ s) : splitOn c (joinSep [c] L) = L := by
  induction L with
  | nil => exact absurd rfl hL
  | cons x xs ih =>
    match xs with
    | [] => exact splitOn_single (h x (List.mem_cons_self _ _))
    | y :: ys =>
      have hx : c ∉ x := h x (List.mem_cons_self _ _)
      have hj : joinSep [c] (x :: y :: ys) = x ++ c :: joinSep [c] (y :: ys) := by
        simp [joinSep]
      rw [hj, splitOn_append, splitOn_single hx]
      rw [ih (by simp) (fun s hs => h s (List.mem_cons_of_mem _ hs))]
      rfl

theorem mem_joinSep {c : Char} {L : List PyStr} {x : Char} (hx : x ∈ joinSep [c] L) :
    x = c ∨ ∃ s ∈ L, x ∈ s := by
  induction L with
  | nil => simp [joinSep] at hx
  | cons a xs ih =>
    match xs with
    | [] =>
      right
      exact ⟨a, List.mem_cons_self _ _, hx⟩
    | y :: ys =>
      have hj : joinSep [c] (a :: y :: ys) = a ++ c :: joinSep [c] (y :: ys) := by
        simp [joinSep]
      rw [hj] at hx
      rcases List.mem_append.mp hx with hx | hx
      · exact Or.inr ⟨a, List.mem_cons_self _ _, hx⟩
      · rcases List.mem_cons.mp hx with hx | hx
        · exact Or.inl hx
        · rcases ih hx with hc | ⟨s, hs, hxs⟩
          · exact Or.inl hc
          · exact Or.inr ⟨s, List.mem_cons_of_mem _ hs, hxs⟩

theorem takeWhile_append_stop {p : Char → Bool} {c : Char} (hc : p c = false)
    (xs ys : PyStr) : (xs ++ c :: ys).takeWhile p = xs.takeWhile p := by
  induction xs with
  | nil => simp [List.takeWhile, hc]
  | cons x xs ih =>
    simp only [List.cons_append, List.takeWhile]
    cases p x <;> simp [ih]

theorem dropWhile_append_stop {p : Char → Bool} {c : Char} (hc : p c = false)
    (xs ys : PyStr) : (xs ++ c :: ys).dropWhile p = xs.dropWhile p ++ c :: ys := by
  induction xs with
  | nil => simp [List.dropWhile, hc]
  | cons x xs ih =>
    simp only [List.cons_append, List.dropWhile]
    cases p x <;> simp [ih]

theorem lstripWS_append_keep {c : Char} (hc : isC0OrSpace c = false) (xs ys : PyStr) :
    lstripWS (xs ++ c :: ys) = lstripWS xs ++ c :: ys := by
  induction xs with
  | nil => simp [lstripWS, hc]
  | cons x xs ih =>
    simp only [List.cons_append, lstripWS]
    by_cases hx : isC0OrSpace x = true
    · simp [hx, ih]
    · simp only [Bool.not_eq_true] at hx
      simp [hx]

theorem sanitizeUrl_append_keep {c : Char} (h1 : isC0OrSpace c = false)
    (h2 : isTabCrLf c = false) (xs ys : PyStr) :
    sanitizeUrl (xs ++ c :: ys) = sanitizeUrl xs ++ c :: removeTabCrLf ys := by
  unfold sanitizeUrl removeTabCrLf
  rw [lstripWS_append_keep h1, List.filter_append, List.filter_cons]
  simp [h2]

theorem mem_of_splitFirst_none {c : Char} {xs : PyStr} (h : splitFirst c xs = none) : c ∉ xs := by
  induction xs with
  | nil => simp
  | cons x xs ih =>
    by_cases hx : x = c
    · simp [splitFirst, hx] at h
    · simp only [splitFirst, if_neg hx] at h
      cases hY : splitFirst c xs with
      | none =>
        simp only [List.mem_cons, not_or]
        exact ⟨fun hc => hx hc.symm, ih hY⟩
      | some p => rw [hY] at h; simp at h

theorem splitScheme_append {c : Char} (hc1 : isSchemeChar c = false) (hc2 : ¬c = ':')
    (d X Y : PyStr) :
    splitScheme d (X ++ c :: Y) = ((splitScheme d X).1, (splitScheme d X).2 ++ c :: Y) := by
  match h : splitFirst ':' X with
  | none =>
    have hm := mem_of_splitFirst_none h
    rw [splitScheme, splitScheme, h, splitFirst_append_not_mem hm]
    rw [show splitFirst ':' (c :: Y) = (splitFirst ':' Y).map (fun p => (c :: p.1, p.2)) by
      simp [splitFirst, hc2]]
    cases hY : splitFirst ':' Y with
    | none => simp
    | some p =>
      simp only [Option.map_map, Option.map_some]
      have hall : ((X ++ c :: p.1).all isSchemeChar) = false := by
        rw [List.all_append]
        simp [List.all_cons, hc1]
      simp [Function.comp, hall]
  | some p =>
    rw [splitScheme, splitScheme, h, splitFirst_append_of_some h]
    by_cases hcond : (!p.1.isEmpty && headIsAlpha p.1 && p.1.all isSchemeChar) = true
    · simp [hcond]
    · simp only [Bool.not_eq_true] at hcond
      simp [hcond]

theorem splitNetloc_append {c : Char} (hc : isNetlocDelim c = true) (hc2 : ¬c = '/')
    (X Y : PyStr) :
    splitNetloc (X ++ c :: Y) =
      (splitNetloc X).map (fun p => (p.1, p.2 ++ c :: Y)) := by
  have hcb : (c == '/') = false := by simp [hc2]
  match X with
  | [] =>
    match Y with
    | [] => rfl
    | y :: ys =>
      simp only [List.nil_append, splitNetloc, hcb, Bool.false_and, Bool.false_eq_true,
        if_false]
      rfl
  | [x] =>
    simp only [List.cons_append, List.nil_append, splitNetloc, hcb, Bool.and_false,
      Bool.false_eq_true, if_false]
    rfl
  | x1 :: x2 :: xs =>
    simp only [List.cons_append, splitNetloc]
    by_cases hss : ((x1 == '/') && (x2 == '/')) = true
    · simp only [hss, if_true]
      have hpc : (fun ch => !isNetlocDelim ch) c = false := by simp [hc]
      rw [takeWhile_append_stop hpc, dropWhile_append_stop hpc]
      by_cases hbr : ((xs.takeWhile (fun ch => !isNetlocDelim ch)).contains '[' &&
          !(xs.takeWhile (fun ch => !isNetlocDelim ch)).contains ']' ||
          (xs.takeWhile (fun ch => !isNetlocDelim ch)).contains ']' &&
          !(xs.takeWhile (fun ch => !isNetlocDelim ch)).contains '[') = true
      · simp only [hbr, if_true]
        rfl
      · simp only [Bool.not_eq_true] at hbr
        simp only [hbr, Bool.false_eq_true, if_false]
        rfl
    · simp only [Bool.not_eq_true] at hss
      simp only [hss, Bool.false_eq_true, if_false]
      rfl

theorem mem_of_mem_dropWhile {p : Char → Bool} {l : PyStr} {x : Char}
    (h : x ∈ l.dropWhile p) : x ∈ l := by
  induction l with
  | nil => simp at h
  | cons c cs ih =>
    by_cases hc : p c = true
    · simp only [List.dropWhile, hc] at h
      exact List.mem_cons_of_mem _ (ih h)
    · simp only [Bool.not_eq_true] at hc
      simp only [List.dropWhile, hc] at h
      exact h

theorem mem_lstripWS {x : Char} {s : PyStr} (h : x ∈ lstripWS s) : x ∈ s := by
  induction s with
  | nil => simp [lstripWS] at h
  | cons c cs ih =>
    by_cases hc : isC0OrSpace c = true
    · simp only [lstripWS, if_pos hc] at h
      exact List.mem_cons_of_mem _ (ih h)
    · simp only [lstripWS, if_neg hc] at h
      exact h

theorem mem_sanitizeUrl {x : Char} {s : PyStr} (h : x ∈ sanitizeUrl s) : x ∈ s := by
  unfold sanitizeUrl removeTabCrLf at h
  exact mem_lstripWS (List.mem_of_mem_filter h)

theorem mem_removeTabCrLf {x : Char} {s : PyStr} (h : x ∈ removeTabCrLf s) : x ∈ s := by
  exact List.mem_of_mem_filter h

theorem splitScheme_snd_mem {d u : PyStr} {x : Char}
    (h : x ∈ (splitScheme d u).2) : x ∈ u := by
  unfold splitScheme at h
  cases hsf : splitFirst ':' u with
  | none => rw [hsf] at h; exact h
  | some p =>
    rw [hsf] at h
    by_cases hcond : (!p.1.isEmpty && headIsAlpha p.1 && p.1.all isSchemeChar) = true
    · simp only [hcond, if_true] at h
      obtain ⟨hu, -⟩ := splitFirst_some_spec hsf
      rw [hu]
      exact List.mem_append_right _ (List.mem_cons_of_mem _ h)
    · simp only [Bool.not_eq_true] at hcond
      simp only [hcond, Bool.false_eq_true, if_false] at h
      exact h

theorem splitNetloc_ok_snd_mem {u nl r : PyStr} {x : Char}
    (h : splitNetloc u = .ok (nl, r)) (hx : x ∈ r) : x ∈ u := by
  match u with
  | [] =>
    simp [splitNetloc] at h
    obtain ⟨-, h2⟩ := h
    subst h2
    simp at hx
  | [c1] =>
    simp [splitNetloc] at h
    obtain ⟨-, h2⟩ := h
    subst h2
    exact hx
  | c1 :: c2 :: rest =>
    simp only [splitNetloc] at h
    split at h
    · split at h
      · simp at h
      · simp only [Except.ok.injEq, Prod.mk.injEq] at h
        obtain ⟨-, h2⟩ := h
        subst h2
        exact List.mem_cons_of_mem _ (List.mem_cons_of_mem _ (mem_of_mem_dropWhile hx))
    · simp only [Except.ok.injEq, Prod.mk.injEq] at h
      obtain ⟨-, h2⟩ := h
      subst h2
      exact hx

/-- The scheme/netloc portion of a `urlsplit` run, applied to the part of the
URL that precedes the first `?`: everything after it is the raw path. -/
def prefixParse (dflt P : PyStr) : Except PyErr (PyStr × PyStr × PyStr) :=
  let u1 := sanitizeUrl P
  let sr := splitScheme (sanitizeScheme dflt) u1
  (splitNetloc sr.2).map (fun nr => (sr.1, nr.1, nr.2))

theorem urlsplit_landmark (dflt P Q F suf : PyStr)
    (hP1 : '?' ∉ P) (hP2 : '#' ∉ P) (hQ : '#' ∉ Q)
    (hsuf : suf = [] ∧ F = [] ∨ suf = '#' :: F) :
    urlsplit dflt (P ++ '?' :: (Q ++ suf)) =
      (prefixParse dflt P).map
        (fun pr => ⟨pr.1, pr.2.1, pr.2.2, removeTabCrLf Q, removeTabCrLf F⟩) := by
  have h1 : sanitizeUrl (P ++ '?' :: (Q ++ suf)) =
      sanitizeUrl P ++ '?' :: (removeTabCrLf Q ++ removeTabCrLf suf) := by
    rw [sanitizeUrl_append_keep (by decide) (by decide)]
    unfold removeTabCrLf
    rw [List.filter_append]
  unfold urlsplit prefixParse
  simp only []
  rw [h1, splitScheme_append (by decide) (by decide),
    splitNetloc_append (by decide) (by decide)]
  cases hnet : splitNetloc (splitScheme (sanitizeScheme dflt) (sanitizeUrl P)).2 with
  | error e => rfl
  | ok nr =>
    obtain ⟨nl, r2⟩ := nr
    have hr2q : '?' ∉ r2 := fun hm =>
      hP1 (mem_sanitizeUrl (splitScheme_snd_mem (splitNetloc_ok_snd_mem hnet hm)))
    have hr2h : '#' ∉ r2 := fun hm =>
      hP2 (mem_sanitizeUrl (splitScheme_snd_mem (splitNetloc_ok_snd_mem hnet hm)))
    have hQ' : '#' ∉ removeTabCrLf Q := fun hm => hQ (mem_removeTabCrLf hm)
    simp only [Except.map]
    rcases hsuf with ⟨hs, hF⟩ | hs
    · subst hs hF
      have hfr : splitFragment (r2 ++ '?' :: (removeTabCrLf Q ++ removeTabCrLf [])) =
          (r2 ++ '?' :: removeTabCrLf Q, []) := by
        unfold splitFragment
        rw [show removeTabCrLf ([] : PyStr) = [] from rfl, List.append_nil]
        rw [splitFirst_eq_none (by
          intro hm
          rcases List.mem_append.mp hm with hm | hm
          · exact hr2h hm
          · rcases List.mem_cons.mp hm with hm | hm
            · exact absurd hm.symm (by decide)
            · exact hQ' hm)]
      have hqr : splitQuery (r2 ++ '?' :: removeTabCrLf Q) = (r2, removeTabCrLf Q) := by
        unfold splitQuery
        rw [splitFirst_append_delim hr2q]
      rw [hfr, hqr]
      rfl
    · subst hs
      have hsufr : removeTabCrLf ('#' :: F) = '#' :: removeTabCrLf F := by
        unfold removeTabCrLf
        rw [List.filter_cons]
        rfl
      rw [hsufr]
      have hassoc : r2 ++ '?' :: (removeTabCrLf Q ++ '#' :: removeTabCrLf F) =
          (r2 ++ '?' :: removeTabCrLf Q) ++ '#' :: removeTabCrLf F := by
        simp
      rw [hassoc]
      have hfr : splitFragment ((r2 ++ '?' :: removeTabCrLf Q) ++ '#' :: removeTabCrLf F) =
          (r2 ++ '?' :: removeTabCrLf Q, removeTabCrLf F) := by
        unfold splitFragment
        rw [splitFirst_append_delim (by
          intro hm
          rcases List.mem_append.mp hm with hm | hm
          · exact hr2h hm
          · rcases List.mem_cons.mp hm with hm | hm
            · exact absurd hm.symm (by decide)
            · exact hQ' hm)]
      have hqr : splitQuery (r2 ++ '?' :: removeTabCrLf Q) = (r2, removeTabCrLf Q) := by
        unfold splitQuery
        rw [splitFirst_append_delim hr2q]
      rw [hfr, hqr]

/-- The raw name of one `&`-separated query field: everything before the first
`=`, or the whole field when there is no `=`. -/
def segName (nv : PyStr) : PyStr :=
  match splitFirst '=' nv with
  | some p => p.1
  | none => nv

/-- Whether a raw query field survives `_signature` removal. -/
def keepSeg (s : PyStr) : Bool := !(segName s == sigName)

/-- Modelled from the spec: remove from a raw query string every parameter
named exactly `_signature` (split on `&`, drop fields named `_signature`,
rejoin). -/
def removeSegsStr (q : PyStr) : PyStr :=
  joinSep ['&'] ((splitOn '&' q).filter keepSeg)

/-- Modelled from the spec: the query portion of a URL is everything between
the first `?` before the fragment and the `#` starting the fragment; drop its
`_signature` parameters and leave the rest of the URL untouched. -/
def removeSigPre (a : PyStr) : PyStr :=
  match splitFirst '?' a with
  | some pq => pq.1 ++ '?' :: removeSegsStr pq.2
  | none => a

/-- Modelled from the spec: "the same URL with those `_signature` parameters
removed" (claim C2). -/
def removeSignatureParams (u : PyStr) : PyStr :=
  match splitFirst '#' u with
  | some af => removeSigPre af.1 ++ '#' :: af.2
  | none => removeSigPre u

/-- Whether the pre-fragment part of a URL has a query string with at least
one field named exactly `_signature`. -/
def hasSigPre (a : PyStr) : Bool :=
  match splitFirst '?' a with
  | some pq => (splitOn '&' pq.2).any (fun s => segName s == sigName)
  | none => false

/-- Whether a URL's query string contains at least one parameter named
exactly `_signature` (claim C2's hypothesis). -/
def hasRawSignatureParam (u : PyStr) : Bool :=
  match splitFirst '#' u with
  | some af => hasSigPre af.1
  | none => hasSigPre u

theorem parse_qsl_core (q : PyStr) :
    parse_qsl q = (splitOn '&' q).filterMap parseNameValue := by
  cases q <;> rfl

theorem isEmpty_append_cons (l : PyStr) (x : Char) (r : PyStr) :
    (l ++ x :: r).isEmpty = false := by
  cases l <;> rfl

theorem parseNameValue_sig {seg : PyStr} (h : segName seg = sigName) {pr : PyStr × PyStr}
    (hp : parseNameValue (removeTabCrLf seg) = some pr) : pr.1 = sigName := by
  unfold segName at h
  cases hsf : splitFirst '=' seg with
  | some p =>
    rw [hsf] at h
    simp only [] at h
    obtain ⟨hseg, hnm⟩ := splitFirst_some_spec hsf
    rw [hseg, h] at hp
    have hrm : removeTabCrLf (sigName ++ '=' :: p.2) =
        sigName ++ '=' :: removeTabCrLf p.2 := by
      unfold removeTabCrLf
      rw [List.filter_append, List.filter_cons]
      rw [show (List.filter (fun c => !isTabCrLf c) sigName) = sigName from by decide]
      rfl
    rw [hrm] at hp
    unfold parseNameValue at hp
    rw [if_neg (by simp [isEmpty_append_cons])] at hp
    rw [splitFirst_append_delim (by decide)] at hp
    simp only [Option.some.injEq] at hp
    have h1 := congrArg Prod.fst hp
    simp only [] at h1
    rw [← h1]
    decide
  | none =>
    rw [hsf] at h
    simp only [] at h
    subst h
    rw [show removeTabCrLf sigName = sigName from by decide] at hp
    rw [show parseNameValue sigName = some (sigName, []) from by decide] at hp
    simp only [Option.some.injEq] at hp
    rw [← hp]

theorem filtered_parse_skip (segs : List PyStr) :
    (((segs.filter keepSeg).map removeTabCrLf).filterMap parseNameValue).filter
        (fun p => !(p.1 == sigName)) =
      ((segs.map removeTabCrLf).filterMap parseNameValue).filter
        (fun p => !(p.1 == sigName)) := by
  induction segs with
  | nil => rfl
  | cons seg rest ih =>
    by_cases hks : keepSeg seg = true
    · simp only [List.filter_cons, hks, if_true, List.map_cons, List.filterMap_cons]
      cases hp : parseNameValue (removeTabCrLf seg) with
      | none => exact ih
      | some pr => simp only [List.filter_cons, ih]
    · have hsig : segName seg = sigName := by
        unfold keepSeg at hks
        simp only [Bool.not_eq_true', Bool.not_eq_false] at hks
        exact eq_of_beq hks
      simp only [Bool.not_eq_true] at hks
      simp only [List.filter_cons, hks, Bool.false_eq_true, if_false, List.map_cons,
        List.filterMap_cons]
      cases hp : parseNameValue (removeTabCrLf seg) with
      | none => exact ih
      | some pr =>
        have : pr.1 = sigName := parseNameValue_sig hsig hp
        simp only [List.filter_cons, this, beq_self_eq_true, Bool.not_true,
          Bool.false_eq_true, if_false, ih]

theorem splitOn_removeTabCrLf (q : PyStr) :
    splitOn '&' (removeTabCrLf q) = (splitOn '&' q).map removeTabCrLf := by
  unfold removeTabCrLf
  rw [splitOn_filter (by decide)]

theorem removeTabCrLf_joinSep (L : List PyStr) :
    removeTabCrLf (joinSep ['&'] L) = joinSep ['&'] (L.map removeTabCrLf) := by
  unfold removeTabCrLf
  rw [filter_joinSep (by decide)]

theorem processQuery_remove (Q : PyStr) :
    processQuery (removeTabCrLf (removeSegsStr Q)) = processQuery (removeTabCrLf Q) := by
  have hparse : (parse_qsl (removeTabCrLf (removeSegsStr Q))).filter (fun p => !(p.1 == sigName)) =
      (parse_qsl (removeTabCrLf Q)).filter (fun p => !(p.1 == sigName)) := by
    rw [parse_qsl_core, parse_qsl_core]
    simp only [splitOn_removeTabCrLf]
    unfold removeSegsStr
    cases hKS : (splitOn '&' Q).filter keepSeg with
    | nil =>
      have hskip := filtered_parse_skip (splitOn '&' Q)
      rw [hKS] at hskip
      simp only [List.map_nil, List.filterMap_nil, List.filter_nil] at hskip
      rw [← hskip]
      rfl
    | cons k ks =>
      rw [← hKS]
      rw [splitOn_joinSep (by rw [hKS]; simp) ?hmem]
      case hmem =>
        intro s hs hmem
        exact not_mem_of_mem_splitOn (List.mem_of_mem_filter hs) hmem
      exact filtered_parse_skip (splitOn '&' Q)
  unfold processQuery
  rw [hparse]

theorem canonical_remove {u : PyStr} (hs : hasRawSignatureParam u = true) :
    canonical_path_and_query (removeSignatureParams u) = canonical_path_and_query u := by
  unfold hasRawSignatureParam at hs
  unfold removeSignatureParams
  cases hsh : splitFirst '#' u with
  | some af =>
    rw [hsh] at hs
    simp only [] at hs ⊢
    obtain ⟨hu, hnotA⟩ := splitFirst_some_spec hsh
    unfold hasSigPre at hs
    unfold removeSigPre
    cases hsq : splitFirst '?' af.1 with
    | some pq =>
      rw [hsq] at hs
      simp only [] at hs ⊢
      obtain ⟨hA, hnotP⟩ := splitFirst_some_spec hsq
      have h2 : '#' ∉ pq.1 := fun hm => hnotA (hA ▸ List.mem_append_left _ hm)
      have h3 : '#' ∉ pq.2 := fun hm =>
        hnotA (hA ▸ List.mem_append_right _ (List.mem_cons_of_mem _ hm))
      have h4 : '#' ∉ removeSegsStr pq.2 := by
        intro hm
        unfold removeSegsStr at hm
        rcases mem_joinSep hm with hc | ⟨s, hsx, hmem⟩
        · exact absurd hc (by decide)
        · exact h3 (mem_of_mem_splitOn (List.mem_of_mem_filter hsx) hmem)
      have huu : u = pq.1 ++ '?' :: (pq.2 ++ '#' :: af.2) := by
        rw [hu, hA]; simp
      have hru : pq.1 ++ '?' :: removeSegsStr pq.2 ++ '#' :: af.2 =
          pq.1 ++ '?' :: (removeSegsStr pq.2 ++ '#' :: af.2) := by simp
      rw [huu, hru]
      unfold canonical_path_and_query
      rw [urlsplit_landmark [] pq.1 pq.2 af.2 ('#' :: af.2) hnotP h2 h3 (Or.inr rfl),
        urlsplit_landmark [] pq.1 (removeSegsStr pq.2) af.2 ('#' :: af.2) hnotP h2 h4
          (Or.inr rfl)]
      cases prefixParse [] pq.1 with
      | error e => rfl
      | ok pr =>
        simp only [Except.map]
        rw [processQuery_remove]
    | none =>
      rw [hsq] at hs
      simp at hs
  | none =>
    rw [hsh] at hs
    simp only [] at hs ⊢
    have hnotU : '#' ∉ u := mem_of_splitFirst_none hsh
    unfold hasSigPre at hs
    unfold removeSigPre
    cases hsq : splitFirst '?' u with
    | some pq =>
      rw [hsq] at hs
      simp only [] at hs ⊢
      obtain ⟨hA, hnotP⟩ := splitFirst_some_spec hsq
      have h2 : '#' ∉ pq.1 := fun hm => hnotU (hA ▸ List.mem_append_left _ hm)
      have h3 : '#' ∉ pq.2 := fun hm =>
        hnotU (hA ▸ List.mem_append_right _ (List.mem_cons_of_mem _ hm))
      have h4 : '#' ∉ removeSegsStr pq.2 := by
        intro hm
        unfold removeSegsStr at hm
        rcases mem_joinSep hm with hc | ⟨s, hsx, hmem⟩
        · exact absurd hc (by decide)
        · exact h3 (mem_of_mem_splitOn (List.mem_of_mem_filter hsx) hmem)
      have huu : u = pq.1 ++ '?' :: (pq.2 ++ []) := by
        rw [hA]; simp
      have hru : pq.1 ++ '?' :: removeSegsStr pq.2 =
          pq.1 ++ '?' :: (removeSegsStr pq.2 ++ []) := by simp
      rw [huu, hru]
      unfold canonical_path_and_query
      rw [urlsplit_landmark [] pq.1 pq.2 [] [] hnotP h2 h3 (Or.inl ⟨rfl, rfl⟩),
        urlsplit_landmark [] pq.1 (removeSegsStr pq.2) [] [] hnotP h2 h4 (Or.inl ⟨rfl, rfl⟩)]
      cases prefixParse [] pq.1 with
      | error e => rfl
      | ok pr =>
        simp only [Except.map]
        rw [processQuery_remove]
    | none =>
      rw [hsq] at hs

/-- The body segment of the digest input, as computed by `compute_signature`:
empty for an absent body or one starting with `---`, otherwise the filtered
body. -/
def bodySegment : Option PyStr → PyStr
  | none => []
  | some b => if listStartsWith threeDashes b then [] else signatureRegexSub b

/-- The digest input described verbatim by claim C1: the character filter is
applied to the body whenever one is present, with no file-attachment
exception. -/
def claimedDigestInputC1 (method cpath : PyStr) (body : Option PyStr) (key : PyStr) : PyStr :=
  method ++ ':' :: signatureRegexSub cpath ++ ':' ::
    (match body with | some b => signatureRegexSub b | none => []) ++ ':' :: signatureRegexSub key

/-- The digest input after the method, as a function of the canonical
path+query, the body and the key only. -/
def signatureDigestTail (cpath : PyStr) (body : Option PyStr) (key : PyStr) : PyStr :=
  ':' :: signatureRegexSub cpath ++ ':' :: bodySegment body ++ ':' :: signatureRegexSub key

set_option maxRecDepth 100000 in
/-- C1 (counterexample): as literally stated the claim fails for a body that
begins with `---`: `compute_signature` discards such a body (empty third
segment), while the claim's digest input contains the filtered body `---`.
At method `GET`, URL `/x` (whose canonical path+query is `/x`), body `---`
and key `k` the two hex digests differ. -/
theorem C1_counterexample :
    canonical_path_and_query "/x".toList = .ok "/x".toList ∧
    compute_signature "GET".toList "/x".toList (some "---".toList) "k".toList ≠
      .ok (lowerStr (sha1HexOfStr
        (claimedDigestInputC1 "GET".toList "/x".toList (some "---".toList) "k".toList))) := by
  constructor
  · decide
  · decide

/-- C1 (amended): for every method, URL, optional body and key,
`compute_signature` returns the lowercase hexadecimal SHA-1 digest of the
string made of four segments joined by three literal colons — the method, the
filtered canonical path+query, the body segment (the empty string when the
body is absent **or begins with `---`**, otherwise the filtered body), and
the filtered key — whenever the URL splits without error. -/
theorem C1_digest_input (m u k cp : PyStr) (bo : Option PyStr)
    (h : canonical_path_and_query u = .ok cp) :
    compute_signature m u bo k =
      .ok (lowerStr (sha1HexOfStr
        (m ++ ':' :: signatureRegexSub cp ++ ':' :: bodySegment bo ++ ':' ::
          signatureRegexSub k))) := by
  simp only [compute_signature, h, bodySegment]
  cases bo with
  | none => simp
  | some bs =>
    cases bs with
    | nil => simp [listStartsWith, threeDashes, signatureRegexSub]
    | cons c cs =>
      by_cases h3 : listStartsWith threeDashes (c :: cs)
      · simp [h3]
      · simp [h3]

set_option maxRecDepth 100000 in
/-- Witness for C1 (amended) at method `GET`, URL `/x?b=2&a=1`, body `hi`,
key `k`. -/
theorem C1_digest_input_witness :
    canonical_path_and_query "/x?b=2&a=1".toList = .ok "/x?a=1&b=2".toList ∧
    compute_signature "GET".toList "/x?b=2&a=1".toList (some "hi".toList) "k".toList =
      .ok (lowerStr (sha1HexOfStr
        ("GET".toList ++ ':' :: signatureRegexSub "/x?a=1&b=2".toList ++ ':' ::
          bodySegment (some "hi".toList) ++ ':' :: signatureRegexSub "k".toList))) :=
  ⟨by decide, C1_digest_input _ _ _ _ _ (by decide)⟩

/-- C2: re-signing after removing the `_signature` query parameters of a URL
that contains at least one such parameter reproduces the signature of the
original URL, for every method, body and key. -/
theorem C2_resign_after_removal (m u k : PyStr) (bo : Option PyStr)
    (hs : hasRawSignatureParam u = true) :
    compute_signature m (removeSignatureParams u) bo k = compute_signature m u bo k := by
  unfold compute_signature
  rw [canonical_remove hs]

set_option maxRecDepth 100000 in
/-- Witness for C2 at `http://h/a?b=1&_signature=abc&c=2`. -/
theorem C2_resign_after_removal_witness :
    hasRawSignatureParam "http://h/a?b=1&_signature=abc&c=2".toList = true ∧
    compute_signature "GET".toList
        (removeSignatureParams "http://h/a?b=1&_signature=abc&c=2".toList) none "key".toList =
      compute_signature "GET".toList "http://h/a?b=1&_signature=abc&c=2".toList none
        "key".toList :=
  ⟨by decide, C2_resign_after_removal _ _ _ _ (by decide)⟩

/-- C3: for every body that begins with the literal prefix `---`,
`compute_signature` returns the same signature as for an absent body. -/
theorem C3_multipart_body_discarded (m u b k : PyStr)
    (h : listStartsWith threeDashes b = true) :
    compute_signature m u (some b) k = compute_signature m u none k := by
  unfold compute_signature
  cases hc : canonical_path_and_query u with
  | error e => rfl
  | ok cp =>
    cases b with
    | nil => simp [listStartsWith, threeDashes] at h
    | cons c cs => simp [h]

set_option maxRecDepth 100000 in
/-- Witness for C3 at body `---boundary`. -/
theorem C3_multipart_body_discarded_witness :
    listStartsWith threeDashes "---boundary".toList = true ∧
    compute_signature "POST".toList "/p?a=1".toList (some "---boundary".toList) "k".toList =
      compute_signature "POST".toList "/p?a=1".toList none "k".toList :=
  ⟨by decide, C3_multipart_body_discarded _ _ _ _ (by decide)⟩

/-- C10: the method is embedded into the digest input verbatim: whenever the
URL splits without error, the signature is the SHA-1 of the unfiltered method
followed by a tail that does not depend on the method; the restrictive
character filter is applied to the canonical path+query, the body and the
key inside that tail, but never to the method. -/
theorem C10_method_unfiltered (m u k cp : PyStr) (bo : Option PyStr)
    (h : canonical_path_and_query u = .ok cp) :
    compute_signature m u bo k =
      .ok (lowerStr (sha1HexOfStr (m ++ signatureDigestTail cp bo k))) := by
  simp only [compute_signature, h, signatureDigestTail, bodySegment]
  cases bo with
  | none => simp
  | some bs =>
    cases bs with
    | nil => simp [listStartsWith, threeDashes, signatureRegexSub]
    | cons c cs =>
      by_cases h3 : listStartsWith threeDashes (c :: cs)
      · simp [h3]
      · simp [h3]

set_option maxRecDepth 100000 in
/-- Witness for C10 at a method containing characters outside the safe
alphabet (`G*T!`). -/
theorem C10_method_unfiltered_witness :
    canonical_path_and_query "/p".toList = .ok "/p".toList ∧
    compute_signature "G*T!".toList "/p".toList none "k".toList =
      .ok (lowerStr (sha1HexOfStr
        ("G*T!".toList ++ signatureDigestTail "/p".toList none "k".toList))) :=
  ⟨by decide, C10_method_unfiltered _ _ _ _ _ (by decide)⟩

/-- `urllib.parse.quote_plus(s, safe="")`: like `quote` but spaces become `+`. -/
def quote_plus (s : PyStr) : PyStr :=
  if s.contains ' ' then
    (quote s [' ']).map (fun c => if c = ' ' then '+' else c)
  else quote s []

/-- `urllib.parse.urlencode(d)` over an insertion-ordered dict of strings
(`quote_via=quote_plus`, the default). -/
def urlencode (params : List (PyStr × PyStr)) : PyStr :=
  joinSep ['&'] (params.map (fun kv => quote_plus kv.1 ++ '=' :: quote_plus kv.2))

/-- Python dict update `d[k] = v`: replace the value in place when the key
exists, append otherwise. -/
def dictSet (d : List (PyStr × PyStr)) (k v : PyStr) : List (PyStr × PyStr) :=
  match d with
  | [] => [(k, v)]
  | kv :: rest => if kv.1 == k then (k, v) :: rest else kv :: dictSet rest k v

/-- The six components of `urllib.parse.urlparse`. -/
structure ParseResult6 where
  scheme : PyStr
  netloc : PyStr
  path : PyStr
  params : PyStr
  query : PyStr
  fragment : PyStr
  deriving DecidableEq, Repr

/-- Split a list at the last occurrence of `c`. -/
def splitLast (c : Char) (s : PyStr) : Option (PyStr × PyStr) :=
  match splitFirst c s.reverse with
  | some p => some (p.2.reverse, p.1.reverse)
  | none => none

/-- CPython `_splitparams`: split `;params` off the last path segment. -/
def splitparams (url : PyStr) : PyStr × PyStr :=
  match splitLast '/' url with
  | some bl =>
    match splitFirst ';' bl.2 with
    | some xy => (bl.1 ++ '/' :: xy.1, xy.2)
    | none => (url, [])
  | none =>
    match splitFirst ';' url with
    | some xy => (xy.1, xy.2)
    | none => (url, [])

/-- `urllib.parse.urlparse(u, dflt)` (CPython 3.11). -/
def urlparse (dflt u : PyStr) : Except PyErr ParseResult6 :=
  match urlsplit dflt u with
  | .error e => .error e
  | .ok p =>
    if uses_params.contains p.scheme && p.path.contains ';' then
      .ok ⟨p.scheme, p.netloc, (splitparams p.path).1, (splitparams p.path).2,
        p.query, p.fragment⟩
    else .ok ⟨p.scheme, p.netloc, p.path, [], p.query, p.fragment⟩

/-- `urllib.parse.urlunparse` (via `urlunsplit`). -/
def urlunparse (p : ParseResult6) : PyStr :=
  urlunsplit ⟨p.scheme, p.netloc,
    (if p.params.isEmpty then p.path else p.path ++ ';' :: p.params),
    p.query, p.fragment⟩

/-- The `resolved_path` loop of `urljoin`: `..` pops (ignoring underflow),
`.` is skipped, everything else is appended. -/
def resolveDots (segs : List PyStr) : List PyStr :=
  (segs.foldl (fun acc seg =>
    if seg == "..".toList then acc.tail
    else if seg == ".".toList then acc
    else seg :: acc) []).reverse

/-- `segments[1:-1] = filter(None, segments[1:-1])`: drop empty segments
strictly between the first and the last. -/
def filterMidAux : List PyStr → List PyStr
  | [] => []
  | [x] => [x]
  | x :: rest => if x.isEmpty then filterMidAux rest else x :: filterMidAux rest

/-- See `filterMidAux`; the first segment is always kept. -/
def filterMiddleEmpty : List PyStr → List PyStr
  | [] => []
  | [x] => [x]
  | x :: rest => x :: filterMidAux rest

/-- `urllib.parse.urljoin(base, url)` (CPython 3.11). -/
def urljoin (base url : PyStr) : Except PyErr PyStr :=
  if base.isEmpty then .ok url
  else if url.isEmpty then .ok base
  else
    match urlparse [] base with
    | .error e => .error e
    | .ok b =>
      match urlparse b.scheme url with
      | .error e => .error e
      | .ok r =>
        if !(r.scheme == b.scheme) || !uses_relative.contains r.scheme then .ok url
        else if uses_netloc.contains r.scheme && !r.netloc.isEmpty then
          .ok (urlunparse r)
        else
          let netloc := if uses_netloc.contains r.scheme then b.netloc else r.netloc
          if r.path.isEmpty && r.params.isEmpty then
            .ok (urlunparse ⟨r.scheme, netloc, b.path, b.params,
              (if r.query.isEmpty then b.query else r.query), r.fragment⟩)
          else
            let base_parts0 := splitOn '/' b.path
            let base_parts :=
              if base_parts0.getLast? = some [] then base_parts0 else base_parts0.dropLast
            let segments :=
              if startsWithSlash r.path then splitOn '/' r.path
              else filterMiddleEmpty (base_parts ++ splitOn '/' r.path)
            let resolved := resolveDots segments
            let resolved :=
              if segments.getLast? = some ".".toList ∨ segments.getLast? = some "..".toList
              then resolved ++ [[]] else resolved
            let path := joinSep ['/'] resolved
            .ok (urlunparse ⟨r.scheme, netloc, (if path.isEmpty then ['/'] else path),
              r.params, r.query, r.fragment⟩)

/-- A Python value stored in a camera-config dict. -/
inductive PyVal where
  | pstr (s : PyStr)
  | pint (n : Int)
  | pbool (b : Bool)
  deriving DecidableEq, Repr

/-- A camera config: an insertion-ordered dict of string keys to values. -/
abbrev CameraConfig := List (PyStr × PyVal)

/-- Python `d.get(k)`. -/
def dictGet (d : CameraConfig) (k : PyStr) : Option PyVal :=
  match d with
  | [] => none
  | kv :: rest => if kv.1 == k then some kv.2 else dictGet rest k

/-- Python `k in d`. -/
def dictContains (d : CameraConfig) (k : PyStr) : Bool := (dictGet d k).isSome

/-- Python truthiness of a dict value. -/
def pyValTruthy : PyVal → Bool
  | .pstr s => !s.isEmpty
  | .pint n => decide (n ≠ 0)
  | .pbool b => b

/-- Python `str(v)` / f-string formatting of a dict value. -/
def pyValStr : PyVal → PyStr
  | .pstr s => s
  | .pint n => (toString n).toList
  | .pbool b => if b then "True".toList else "False".toList

/-- `motioneye_client.const.KEY_ID`. -/
def KEY_ID : PyStr := "id".toList

/-- `motioneye_client.const.KEY_STREAMING_PORT`. -/
def KEY_STREAMING_PORT : PyStr := "streaming_port".toList

/-- `motioneye_client.const.KEY_VIDEO_STREAMING`. -/
def KEY_VIDEO_STREAMING : PyStr := "video_streaming".toList

/-- `motioneye_client.const.KEY_HOST`. -/
def KEY_HOST : PyStr := "host".toList

/-- The state of a `MotionEyeClient` (`client.py`): the base URL, the two
credential pairs, and the state of the `aiohttp.ClientSession` that
`__init__` always creates itself — the constructor of `client.py` takes no
session argument. -/
structure MotionEyeClient where
  url : PyStr
  admin_username : PyStr
  admin_password : PyStr
  surveillance_username : PyStr
  surveillance_password : PyStr
  /-- Whether the internally created transport session has been closed. -/
  sessionClosed : Bool
  deriving DecidableEq, Repr

/-- Python `x or default` over an optional string argument. -/
def pyOr (o : Option PyStr) (dflt : PyStr) : PyStr :=
  match o with
  | some s => if s.isEmpty then dflt else s
  | none => dflt

/-- `MotionEyeClient.__init__(url, admin_username, admin_password,
surveillance_username, surveillance_password)`: validates that the URL has a
scheme and a netloc, applies credential defaults, and creates a fresh
session.  There is no parameter for an externally supplied session. -/
def MotionEyeClient_init (url : PyStr)
    (admin_username admin_password surveillance_username surveillance_password :
      Option PyStr) : Except PyErr MotionEyeClient :=
  match urlsplit [] url with
  | .error e => .error e
  | .ok parsed =>
    if parsed.scheme.isEmpty || parsed.netloc.isEmpty then .error .urlParseError
    else .ok
      { url := url
        admin_username := pyOr admin_username "admin".toList
        admin_password := pyOr admin_password []
        surveillance_username := pyOr surveillance_username "user".toList
        surveillance_password := pyOr surveillance_password []
        sessionClosed := false }

/-- `MotionEyeClient.async_client_close`: awaits `self._session.close()` —
unconditionally closing the session — and returns `True`. -/
def async_client_close (c : MotionEyeClient) : MotionEyeClient × Bool :=
  ({ c with sessionClosed := true }, true)

/-- `MotionEyeClient._build_url(path, params, data, method, admin)`. -/
def build_url (c : MotionEyeClient) (path : PyStr) (params : List (PyStr × PyStr))
    (data : Option PyStr) (method : PyStr) (admin : Bool) : Except PyErr PyStr :=
  let username := if admin then c.admin_username else c.surveillance_username
  let password := if admin then c.admin_password else c.surveillance_password
  let params := dictSet params "_username".toList username
  match urljoin c.url (path ++ '?' :: urlencode params) with
  | .error e => .error e
  | .ok url =>
    let key := sha1HexOfStr password
    match compute_signature method url data key with
    | .error e => .error e
    | .ok signature => .ok (url ++ "&_signature=".toList ++ signature)

/-- `MotionEyeClient.is_camera_streaming(camera)`. -/
def is_camera_streaming (camera : Option CameraConfig) : Bool :=
  match camera with
  | none => false
  | some c =>
    !c.isEmpty && dictContains c KEY_STREAMING_PORT &&
      pyValTruthy ((dictGet c KEY_VIDEO_STREAMING).getD (.pbool false))

/-- `MotionEyeClient.get_camera_stream_url(camera)`: for a streaming camera,
an `http` URL whose host is the base URL's hostname (the netloc up to the
first `:`) and whose port is the camera's streaming port.  The `KEY_HOST`
field of the camera is never consulted. -/
def get_camera_stream_url (c : MotionEyeClient) (camera : CameraConfig) :
    Except PyErr (Option PyStr) :=
  if is_camera_streaming (some camera) then
    match urlsplit [] c.url with
    | .error e => .error e
    | .ok parts =>
      let host := (splitOn ':' parts.netloc).headD []
      .ok (some (urlunsplit ⟨"http".toList,
        host ++ ':' :: pyValStr ((dictGet camera KEY_STREAMING_PORT).getD (.pbool false)),
        ['/'], [], []⟩))
  else .ok none

/-- `posixpath.splitroot`'s root: `//` for exactly two leading slashes, `/`
for one or at least three, empty otherwise. -/
def purePosixRoot (p : PyStr) : PyStr :=
  match p with
  | c1 :: rest1 =>
    if c1 = '/' then
      match rest1 with
      | c2 :: rest2 =>
        if c2 = '/' then
          match rest2 with
          | c3 :: _ => if c3 = '/' then ['/'] else ['/', '/']
          | [] => ['/', '/']
        else ['/']
      | [] => ['/']
    else []
  | [] => []

/-- `pathlib.PurePosixPath(p).parts`: the root (when any) followed by the
nonempty, non-`.` path segments. -/
def purePosixParts (p : PyStr) : List PyStr :=
  let root := purePosixRoot p
  let segs := (splitOn '/' p).filter (fun s => !s.isEmpty && !(s == ".".toList))
  if root.isEmpty then segs else root :: segs

/-- `MotionEyeClient._strip_leading_slash(path)`: raise `MotionEyeClientPathError`
when the parsed path has no parts; when the first part is `/`, rebuild the
path from the remaining parts (`str(PurePath(*parts[1:]))`, which is `.` when
nothing remains); otherwise return the path unchanged. -/
def strip_leading_slash (path : PyStr) : Except PyErr PyStr :=
  match purePosixParts path with
  | [] => .error .pathError
  | p0 :: rest =>
    if p0 == "/".toList then
      .ok (if rest.isEmpty then ".".toList else joinSep ['/'] rest)
    else .ok path

/-- `MotionEyeClient.get_movie_url(camera_id, path, preview)`. -/
def get_movie_url (c : MotionEyeClient) (camera_id : Int) (path : PyStr)
    (preview : Bool) : Except PyErr PyStr :=
  let action := if preview then "preview".toList else "playback".toList
  match strip_leading_slash path with
  | .error e => .error e
  | .ok stripped =>
    match urljoin c.url ("/movie/".toList ++ (toString camera_id).toList ++
        '/' :: action ++ '/' :: stripped) with
    | .error e => .error e
    | .ok joined => build_url c joined [] none "GET".toList true

/-- `MotionEyeClient.get_image_url(camera_id, path, preview)`. -/
def get_image_url (c : MotionEyeClient) (camera_id : Int) (path : PyStr)
    (preview : Bool) : Except PyErr PyStr :=
  let action := if preview then "preview".toList else "download".toList
  match strip_leading_slash path with
  | .error e => .error e
  | .ok stripped =>
    match urljoin c.url ("/picture/".toList ++ (toString camera_id).toList ++
        '/' :: action ++ '/' :: stripped) with
    | .error e => .error e
    | .ok joined => build_url c joined [] none "GET".toList true

/-- The outcome of `MotionEyeClient._async_request` once an HTTP response has
been received, as a function of the status code and of the JSON parse of the
body (the parse itself — `aiohttp`'s `response.json(content_type=None)` — is
external transport code and is passed in as an `Except`; an empty body parses
to `none`). -/
inductive ReqOutcome (α : Type) where
  | invalidAuth : ReqOutcome α
  | requestError : ReqOutcome α
  | success (v : Option α) : ReqOutcome α
  deriving DecidableEq, Repr

/-- `aiohttp.ClientResponse.ok`: `True` when the status is below 400. -/
def response_ok (status : Nat) : Bool := status < 400

/-- The response branch of `MotionEyeClient._async_request`
(`client.py:150-176`): 403 raises `MotionEyeClientInvalidAuthError`, any
other non-`ok` status raises `MotionEyeClientRequestError`, and a JSON
decode failure on an `ok` status raises `MotionEyeClientRequestError`. -/
def async_request_handle {α : Type} (status : Nat) (jsonBody : Except Unit (Option α)) :
    ReqOutcome α :=
  if status = 403 then .invalidAuth
  else if !response_ok status then .requestError
  else
    match jsonBody with
    | .ok v => .success v
    | .error _ => .requestError

/-- The client used in concrete evaluations: base URL `http://host:8000` with
default credentials, as produced by `MotionEyeClient_init`. -/
def demoClient : MotionEyeClient :=
  ⟨"http://host:8000".toList, "admin".toList, [], "user".toList, [], false⟩

/-- C5 (code evaluation at the failing input): for the camera
`{streaming_port: 8001, video_streaming: True, host: "foobar"}` and base URL
`http://host:8000`, `get_camera_stream_url` returns `http://host:8001/`,
taking the host from the base URL; the per-camera `host` field is ignored,
although `test_get_camera_stream_url_remote_motioneye` expects
`http://foobar:8001/`. -/
theorem C5_host_override_ignored :
    MotionEyeClient_init "http://host:8000".toList none none none none = .ok demoClient ∧
    get_camera_stream_url demoClient
        [(KEY_STREAMING_PORT, .pint 8001), (KEY_VIDEO_STREAMING, .pbool true),
         (KEY_HOST, .pstr "foobar".toList)] =
      .ok (some "http://host:8001/".toList) ∧
    ¬get_camera_stream_url demoClient
        [(KEY_STREAMING_PORT, .pint 8001), (KEY_VIDEO_STREAMING, .pbool true),
         (KEY_HOST, .pstr "foobar".toList)] =
      .ok (some "http://foobar:8001/".toList) := by
  refine ⟨by decide, by decide, by decide⟩

/-- C9 (code evaluation): `async_client_close` always closes the client's
session and returns `True`; the constructor creates the session itself and
has no parameter through which a caller-owned session could be supplied, so
no session ever escapes closing (contradicting
`test_session_passed_in_is_not_closed`). -/
theorem C9_close_always_closes (url : PyStr)
    (au ap su sp : Option PyStr) (c : MotionEyeClient)
    (h : MotionEyeClient_init url au ap su sp = .ok c) :
    c.sessionClosed = false ∧
    (async_client_close c).1.sessionClosed = true ∧ (async_client_close c).2 = true := by
  refine ⟨?_, rfl, rfl⟩
  unfold MotionEyeClient_init at h
  cases hs : urlsplit [] url with
  | error e => rw [hs] at h; simp at h
  | ok parsed =>
    rw [hs] at h
    simp only [] at h
    by_cases hv : (parsed.scheme.isEmpty || parsed.netloc.isEmpty) = true
    · rw [if_pos hv] at h; simp at h
    · rw [if_neg hv] at h
      simp only [Except.ok.injEq] at h
      rw [← h]

/-- Witness for C9 at `http://localhost` with default credentials. -/
theorem C9_close_always_closes_witness :
    MotionEyeClient_init "http://localhost".toList none none none none =
      .ok (⟨"http://localhost".toList, "admin".toList, [], "user".toList, [], false⟩ :
        MotionEyeClient) ∧
    (async_client_close
        (⟨"http://localhost".toList, "admin".toList, [], "user".toList, [], false⟩ :
          MotionEyeClient)).1.sessionClosed = true :=
  ⟨by decide,
    (C9_close_always_closes "http://localhost".toList none none none none
      ⟨"http://localhost".toList, "admin".toList, [], "user".toList, [], false⟩
      (by decide)).2.1⟩

/-- C8 (counterexample): the claim says every non-2xx status other than 403
raises the generic request error, but the code tests `aiohttp`'s
`response.ok`, which is `status < 400`: a 304 response whose (empty) body
parses as JSON `None` is returned as a successful `None` result. -/
theorem C8_counterexample :
    ¬(200 ≤ 304 ∧ 304 < 300) ∧ (304 : Nat) ≠ 403 ∧
    async_request_handle (α := Unit) 304 (.ok none) = .success none := by
  refine ⟨by decide, by decide, by decide⟩

/-- C8 (amended): for every HTTP response received by a request call: a 403
status raises the invalid-authentication error; any other status of at least
400 raises the generic request error; and a status below 400 (in particular
any 2xx status) whose body cannot be parsed as JSON raises the generic
request error rather than returning a successful result, while a status below
400 other than 403 with a parseable body yields that parse. -/
theorem C8_status_contract (α : Type) (status : Nat) (jsonBody : Except Unit (Option α)) :
    (status = 403 → async_request_handle status jsonBody = .invalidAuth) ∧
    (status ≠ 403 → 400 ≤ status → async_request_handle status jsonBody = .requestError) ∧
    (status < 400 → jsonBody = .error () → async_request_handle status jsonBody = .requestError) ∧
    (200 ≤ status → status < 300 → jsonBody = .error () →
      async_request_handle status jsonBody = .requestError) ∧
    (status < 400 → status ≠ 403 → ∀ v, jsonBody = .ok v →
      async_request_handle status jsonBody = .success v) := by
  unfold async_request_handle response_ok
  refine ⟨fun h => by simp [h], fun h1 h2 => ?_, fun h1 h2 => ?_, fun h1 h2 h3 => ?_,
    fun h1 h2 v h3 => ?_⟩
  · rw [if_neg h1, if_pos (by simp; omega)]
  · have h403 : ¬status = 403 := by omega
    rw [if_neg h403, if_neg (by simp [h1]), h2]
  · have h403 : ¬status = 403 := by omega
    have h400 : status < 400 := by omega
    rw [if_neg h403, if_neg (by simp [h400]), h3]
  · rw [if_neg h2, if_neg (by simp [h1]), h3]

/-- Witness for C8 (amended), exercising each branch: 403, 404, 304 with a
parse failure, and 200 with a parsed body. -/
theorem C8_status_contract_witness :
    async_request_handle (α := Unit) 403 (.ok none) = .invalidAuth ∧
    async_request_handle (α := Unit) 404 (.ok none) = .requestError ∧
    async_request_handle (α := Unit) 304 (.error ()) = .requestError ∧
    async_request_handle (α := Unit) 200 (.error ()) = .requestError ∧
    async_request_handle (α := Unit) 200 (.ok (some ())) = .success (some ()) :=
  ⟨(C8_status_contract Unit 403 (.ok none)).1 rfl,
   (C8_status_contract Unit 404 (.ok none)).2.1 (by decide) (by decide),
   (C8_status_contract Unit 304 (.error ())).2.2.1 (by decide) rfl,
   (C8_status_contract Unit 200 (.error ())).2.2.2.1 (by decide) (by decide) rfl,
   (C8_status_contract Unit 200 (.ok (some ()))).2.2.2.2 (by decide) (by decide) _ rfl⟩

set_option maxRecDepth 1000000 in
/-- C6 (counterexample): `get_movie_url(1, "foo/")` and
`get_movie_url(1, "/foo/")` differ: the leading-slash form is normalized by
`PurePath` to `foo` (dropping the trailing slash), the other is passed
through unchanged as `foo/`. -/
theorem C6_counterexample :
    ¬get_movie_url demoClient 1 ('/' :: "foo/".toList) false =
      get_movie_url demoClient 1 "foo/".toList false := by
  decide

set_option maxRecDepth 1000000 in
/-- C7 (counterexample): the claim says the path `/` raises
`MotionEyeClientPathError`, but `PurePath("/").parts` is `("/",)`, which is
nonempty: the path is stripped to `.` and no error is raised. -/
theorem C7_counterexample :
    strip_leading_slash "/".toList = .ok ".".toList ∧
    ¬get_movie_url demoClient 1 "/".toList false = .error .pathError := by
  refine ⟨by decide, by decide⟩

theorem joinSep_splitOn (c : Char) (s : PyStr) : joinSep [c] (splitOn c s) = s := by
  induction s with
  | nil => rfl
  | cons x xs ih =>
    by_cases hx : x = c
    · subst hx
      simp only [splitOn, if_pos rfl]
      match hr : splitOn x xs with
      | [] => exact absurd hr (splitOn_ne_nil x xs)
      | y :: ys =>
        rw [hr] at ih
        simp only [joinSep]
        rw [ih]
        rfl
    · simp only [splitOn, if_neg hx]
      match hr : splitOn c xs with
      | [] => exact absurd hr (splitOn_ne_nil c xs)
      | y :: ys =>
        rw [hr] at ih
        match ys with
        | [] =>
          simp only [joinSep] at ih ⊢
          rw [ih]
        | z :: zs =>
          simp only [joinSep] at ih ⊢
          simp only [List.cons_append, List.append_assoc] at ih ⊢
          rw [ih]

/-- A media path in canonical form: nonempty, and every `/`-separated segment
is nonempty and different from `.` (no leading, trailing or duplicated
separators and no `.` segments). -/
def normalizedMediaPath (p : PyStr) : Bool :=
  !p.isEmpty && (splitOn '/' p).all (fun s => !s.isEmpty && !(s == ".".toList))

theorem strip_of_normalized {p : PyStr} (h : normalizedMediaPath p = true) :
    strip_leading_slash p = .ok p ∧ strip_leading_slash ('/' :: p) = .ok p := by
  unfold normalizedMediaPath at h
  rw [Bool.and_eq_true] at h
  obtain ⟨hne, hall⟩ := h
  rw [List.all_eq_true] at hall
  obtain ⟨c0, cs, rfl⟩ : ∃ c0 cs, p = c0 :: cs := by
    cases p with
    | nil => simp at hne
    | cons a b => exact ⟨a, b, rfl⟩
  have hc0 : ¬c0 = '/' := by
    intro hc
    subst hc
    have hmem : ([] : PyStr) ∈ splitOn '/' ('/' :: cs) := by
      simp [splitOn]
    have := hall _ hmem
    simp at this
  have hfilter : (splitOn '/' (c0 :: cs)).filter
      (fun s => !s.isEmpty && !(s == ".".toList)) = splitOn '/' (c0 :: cs) :=
    List.filter_eq_self.mpr hall
  have hparts : purePosixParts (c0 :: cs) = splitOn '/' (c0 :: cs) := by
    unfold purePosixParts purePosixRoot
    simp only [if_neg hc0, hfilter]
    rfl
  have hsplitcons : ∃ s0 ss, splitOn '/' (c0 :: cs) = s0 :: ss := by
    match hs : splitOn '/' (c0 :: cs) with
    | [] => exact absurd hs (splitOn_ne_nil _ _)
    | s0 :: ss => exact ⟨s0, ss, rfl⟩
  obtain ⟨s0, ss, hsplit⟩ := hsplitcons
  have hs0 : ¬s0 = "/".toList := by
    intro hc
    have hmem : '/' ∈ s0 := by rw [hc]; decide
    exact not_mem_of_mem_splitOn (by rw [hsplit]; exact List.mem_cons_self _ _) hmem
  constructor
  · unfold strip_leading_slash
    rw [hparts, hsplit]
    simp only []
    rw [if_neg (by simpa using hs0)]
  · have hroot2 : purePosixParts ('/' :: c0 :: cs) = "/".toList :: splitOn '/' (c0 :: cs) := by
      unfold purePosixParts purePosixRoot
      simp only [if_pos rfl, if_neg hc0]
      rw [show splitOn '/' ('/' :: c0 :: cs) = [] :: splitOn '/' (c0 :: cs) from by
        simp [splitOn]]
      rw [List.filter_cons]
      simp only [List.isEmpty_nil, Bool.not_true, Bool.false_and, Bool.false_eq_true,
        if_false, hfilter]
      rfl
    unfold strip_leading_slash
    rw [hroot2]
    simp only []
    rw [if_pos (by simp)]
    rw [hsplit]
    simp only [List.isEmpty_cons, Bool.false_eq_true, if_false]
    rw [← hsplit, joinSep_splitOn]

/-- C6: for every client, camera id and preview flag, and every non-empty
normalized media path `p` (no leading, trailing or duplicated separators and
no `.` segments), `get_movie_url` and `get_image_url` produce byte-identical
URLs for `'/' + p` and for `p`. -/
theorem C6_slash_prefix_insensitive (c : MotionEyeClient) (cid : Int) (p : PyStr)
    (pv : Bool) (h : normalizedMediaPath p = true) :
    get_movie_url c cid ('/' :: p) pv = get_movie_url c cid p pv ∧
    get_image_url c cid ('/' :: p) pv = get_image_url c cid p pv := by
  obtain ⟨h1, h2⟩ := strip_of_normalized h
  constructor
  · unfold get_movie_url
    rw [h1, h2]
  · unfold get_image_url
    rw [h1, h2]

/-- Witness for C6 at camera 1 and path `foo` on `demoClient`. -/
theorem C6_slash_prefix_insensitive_witness :
    normalizedMediaPath "foo".toList = true ∧
    get_movie_url demoClient 1 ('/' :: "foo".toList) false =
      get_movie_url demoClient 1 "foo".toList false ∧
    get_image_url demoClient 1 ('/' :: "foo".toList) false =
      get_image_url demoClient 1 "foo".toList false :=
  ⟨by decide, C6_slash_prefix_insensitive demoClient 1 "foo".toList false (by decide)⟩

theorem splitNetloc_error {u : PyStr} {e : PyErr}
    (h : splitNetloc u = .error e) : e = .valueError := by
  match u with
  | [] => simp [splitNetloc] at h
  | [c1] => simp [splitNetloc] at h
  | c1 :: c2 :: rest =>
    simp only [splitNetloc] at h
    split at h
    · split at h
      · simp only [Except.error.injEq] at h
        exact h.symm
      · simp at h
    · simp at h

theorem urlsplit_error {d u : PyStr} {e : PyErr}
    (h : urlsplit d u = .error e) : e = .valueError := by
  unfold urlsplit at h
  simp only [] at h
  cases hn : splitNetloc (splitScheme (sanitizeScheme d) (sanitizeUrl u)).2 with
  | error e2 =>
    rw [hn] at h
    simp only [Except.error.injEq] at h
    rw [← h]
    exact splitNetloc_error hn
  | ok nr =>
    rw [hn] at h
    simp only [] at h
    obtain ⟨nl, r2⟩ := nr
    simp at h

theorem urlparse_error {d u : PyStr} {e : PyErr}
    (h : urlparse d u = .error e) : e = .valueError := by
  unfold urlparse at h
  cases hs : urlsplit d u with
  | error e2 =>
    rw [hs] at h
    simp only [Except.error.injEq] at h
    rw [← h]
    exact urlsplit_error hs
  | ok p =>
    rw [hs] at h
    simp only [] at h
    split at h <;> simp at h

theorem urljoin_error {b u : PyStr} {e : PyErr}
    (h : urljoin b u = .error e) : e = .valueError := by
  unfold urljoin at h
  split at h
  · simp at h
  · split at h
    · simp at h
    · cases hb : urlparse [] b with
      | error e2 =>
        rw [hb] at h
        simp only [Except.error.injEq] at h
        rw [← h]
        exact urlparse_error hb
      | ok bp =>
        rw [hb] at h
        simp only [] at h
        cases hr : urlparse bp.scheme u with
        | error e2 =>
          rw [hr] at h
          simp only [Except.error.injEq] at h
          rw [← h]
          exact urlparse_error hr
        | ok rp =>
          rw [hr] at h
          simp only [] at h
          split at h
          · simp at h
          · split at h
            · simp at h
            · split at h <;> simp at h

theorem compute_signature_error {m u k : PyStr} {b : Option PyStr} {e : PyErr}
    (h : compute_signature m u b k = .error e) : e = .valueError := by
  unfold compute_signature at h
  cases hc : canonical_path_and_query u with
  | error e2 =>
    rw [hc] at h
    simp only [Except.error.injEq] at h
    rw [← h]
    unfold canonical_path_and_query at hc
    cases hs : urlsplit [] u with
    | error e3 =>
      rw [hs] at hc
      simp only [Except.error.injEq] at hc
      rw [← hc]
      exact urlsplit_error hs
    | ok p => rw [hs] at hc; simp at hc
  | ok cp =>
    rw [hc] at h
    simp at h

theorem build_url_error {c : MotionEyeClient} {path : PyStr}
    {params : List (PyStr × PyStr)} {data : Option PyStr} {method : PyStr} {admin : Bool}
    {e : PyErr} (h : build_url c path params data method admin = .error e) :
    e = .valueError := by
  unfold build_url at h
  simp only [] at h
  cases hj : urljoin c.url (path ++ '?' :: urlencode (dictSet params "_username".toList
      (if admin then c.admin_username else c.surveillance_username))) with
  | error e2 =>
    rw [hj] at h
    simp only [Except.error.injEq] at h
    rw [← h]
    exact urljoin_error hj
  | ok url =>
    rw [hj] at h
    simp only [] at h
    cases hc : compute_signature method url data (sha1HexOfStr
        (if admin then c.admin_password else c.surveillance_password)) with
    | error e2 =>
      rw [hc] at h
      simp only [Except.error.injEq] at h
      rw [← h]
      exact compute_signature_error hc
    | ok s => rw [hc] at h; simp at h

/-- C7 (amended): `get_movie_url` and `get_image_url` raise
`MotionEyeClientPathError` — synchronously, the URL construction performs no
network activity — exactly when the media path has no `PurePath` parts: the
empty string, or paths made only of `.` segments and separators after the
root, such as `""` and `"."`; the path `"/"` has parts `("/",)` and is
stripped to `"."` instead of raising. -/
theorem C7_empty_path_error (c : MotionEyeClient) (cid : Int) (p : PyStr) (pv : Bool) :
    (get_movie_url c cid p pv = .error .pathError ↔ purePosixParts p = []) ∧
    (get_image_url c cid p pv = .error .pathError ↔ purePosixParts p = []) := by
  unfold get_movie_url get_image_url strip_leading_slash
  cases hp : purePosixParts p with
  | nil => simp
  | cons p0 rest =>
    have hok : ∀ s action, (match urljoin c.url ("/movie/".toList ++
        (toString cid).toList ++ '/' :: action ++ '/' :: s) with
        | .error e => (.error e : Except PyErr PyStr)
        | .ok joined => build_url c joined [] none "GET".toList true) ≠
          .error .pathError := by
      intro s action hcontra
      cases hj : urljoin c.url ("/movie/".toList ++ (toString cid).toList ++
          '/' :: action ++ '/' :: s) with
      | error e2 =>
        rw [hj] at hcontra
        simp only [Except.error.injEq] at hcontra
        have := urljoin_error hj
        rw [hcontra] at this
        exact absurd this (by decide)
      | ok j =>
        rw [hj] at hcontra
        have := build_url_error hcontra
        exact absurd this (by decide)
    have hok2 : ∀ s action, (match urljoin c.url ("/picture/".toList ++
        (toString cid).toList ++ '/' :: action ++ '/' :: s) with
        | .error e => (.error e : Except PyErr PyStr)
        | .ok joined => build_url c joined [] none "GET".toList true) ≠
          .error .pathError := by
      intro s action hcontra
      cases hj : urljoin c.url ("/picture/".toList ++ (toString cid).toList ++
          '/' :: action ++ '/' :: s) with
      | error e2 =>
        rw [hj] at hcontra
        simp only [Except.error.injEq] at hcontra
        have := urljoin_error hj
        rw [hcontra] at this
        exact absurd this (by decide)
      | ok j =>
        rw [hj] at hcontra
        have := build_url_error hcontra
        exact absurd this (by decide)
    constructor
    · constructor
      · intro hcontra
        simp only [] at hcontra
        by_cases hs : (p0 == "/".toList) = true
        · rw [if_pos hs] at hcontra
          exact absurd hcontra (hok _ _)
        · rw [if_neg hs] at hcontra
          exact absurd hcontra (hok _ _)
      · intro hfalse
        simp at hfalse
    · constructor
      · intro hcontra
        simp only [] at hcontra
        by_cases hs : (p0 == "/".toList) = true
        · rw [if_pos hs] at hcontra
          exact absurd hcontra (hok2 _ _)
        · rw [if_neg hs] at hcontra
          exact absurd hcontra (hok2 _ _)
      · intro hfalse
        simp at hfalse

/-- A lowercase hexadecimal digit. -/
def isLowerHexDigit (c : Char) : Bool :=
  (('0' ≤ c) && (c ≤ '9')) || (('a' ≤ c) && (c ≤ 'f'))

theorem sha1Bytes_lt {b : Nat} {msg : List Nat} (h : b ∈ sha1Bytes msg) : b < 256 := by
  simp only [sha1Bytes, List.mem_cons, List.not_mem_nil, or_false] at h
  rcases h with rfl|rfl|rfl|rfl|rfl|rfl|rfl|rfl|rfl|rfl|rfl|rfl|rfl|rfl|rfl|rfl|rfl|rfl|rfl|rfl <;>
    exact Nat.lt_succ_of_le Nat.and_le_right

theorem hexDigit_lt16 {n : Nat} (h : n < 16) :
    isLowerHexDigit (Char.toLower (hexDigitLower n)) = true ∧
    isLowerHexDigit (hexDigitLower n) = true := by
  interval_cases n <;> exact ⟨by decide, by decide⟩

theorem mem_lowerStr_sha1HexOfStr {ch : Char} {s : PyStr}
    (h : ch ∈ lowerStr (sha1HexOfStr s)) : isLowerHexDigit ch = true := by
  unfold lowerStr at h
  rcases List.mem_map.mp h with ⟨c0, hc0, rfl⟩
  unfold sha1HexOfStr bytesToHexLower at hc0
  rcases List.mem_flatMap.mp hc0 with ⟨b, hb, hcb⟩
  have hblt : b < 256 := sha1Bytes_lt hb
  simp only [List.mem_cons, List.not_mem_nil, or_false] at hcb
  rcases hcb with rfl | rfl
  · exact (hexDigit_lt16 (Nat.div_lt_of_lt_mul (by omega))).1
  · exact (hexDigit_lt16 (Nat.mod_lt _ (by omega))).1

theorem compute_signature_ok_hex {m u k sig : PyStr} {b : Option PyStr}
    (h : compute_signature m u b k = .ok sig) :
    ∀ ch ∈ sig, isLowerHexDigit ch = true := by
  intro ch hch
  unfold compute_signature at h
  cases hc : canonical_path_and_query u with
  | error e => rw [hc] at h; simp at h
  | ok cp =>
    rw [hc] at h
    simp only [Except.ok.injEq] at h
    rw [← h] at hch
    exact mem_lowerStr_sha1HexOfStr hch

theorem mem_of_contains {s : PyStr} {c : Char} (h : s.contains c = true) : c ∈ s := by
  simpa using h

theorem contains_eq_false {s : PyStr} {c : Char} (h : c ∉ s) : s.contains c = false := by
  simpa using h

theorem plusToSpace_eq_self {s : PyStr} (h : ∀ ch ∈ s, ¬ch = '+') : plusToSpace s = s := by
  induction s with
  | nil => rfl
  | cons x xs ih =>
    unfold plusToSpace at ih ⊢
    rw [List.map_cons, if_neg (h x (List.mem_cons_self _ _)),
      ih (fun ch hch => h ch (List.mem_cons_of_mem _ hch))]

theorem unquote_of_no_percent {s : PyStr} (h : s.contains '%' = false) : unquote s = s := by
  unfold unquote
  rw [h]
  rfl

theorem parse_qsl_append_sig (q sig : PyStr)
    (hsig : ∀ ch ∈ sig, isLowerHexDigit ch = true) :
    parse_qsl (q ++ '&' :: (sigName ++ '=' :: sig)) = parse_qsl q ++ [(sigName, sig)] := by
  have hnpct : ∀ ch ∈ sig, ¬ch = '%' := fun ch hch he => by
    have := hsig ch hch
    rw [he] at this
    exact absurd this (by decide)
  have hnplus : ∀ ch ∈ sig, ¬ch = '+' := fun ch hch he => by
    have := hsig ch hch
    rw [he] at this
    exact absurd this (by decide)
  have hnamp : ∀ ch ∈ sig, ¬ch = '&' := fun ch hch he => by
    have := hsig ch hch
    rw [he] at this
    exact absurd this (by decide)
  rw [parse_qsl_core, parse_qsl_core, splitOn_append, List.filterMap_append]
  have hone : splitOn '&' (sigName ++ '=' :: sig) = [sigName ++ '=' :: sig] := by
    apply splitOn_single
    intro hm
    rcases List.mem_append.mp hm with hm | hm
    · exact absurd hm (by decide)
    · rcases List.mem_cons.mp hm with hm | hm
      · exact absurd hm.symm (by decide)
      · exact hnamp '&' hm rfl
  rw [hone]
  have hpnv : parseNameValue (sigName ++ '=' :: sig) = some (sigName, sig) := by
    unfold parseNameValue
    rw [if_neg (by simp [isEmpty_append_cons])]
    rw [splitFirst_append_delim (by decide)]
    simp only []
    rw [show unquote (plusToSpace sigName) = sigName from by decide]
    rw [plusToSpace_eq_self hnplus,
      unquote_of_no_percent (by
        cases hc : sig.contains '%' with
        | false => rfl
        | true => exact absurd rfl (hnpct '%' (mem_of_contains hc)))]
  rw [show List.filterMap parseNameValue [sigName ++ '=' :: sig] =
    [(sigName, sig)] from by rw [List.filterMap_cons, hpnv]; rfl]

/-- The number of `_signature` parameters in the parsed query string of a
URL. -/
def sigParamCount (u : PyStr) : Except PyErr Nat :=
  (urlsplit [] u).map (fun p => ((parse_qsl p.query).filter (fun nv => nv.1 == sigName)).length)

/-- The parsed query-string pairs of a URL. -/
def urlQueryPairs (u : PyStr) : Except PyErr (List (PyStr × PyStr)) :=
  (urlsplit [] u).map (fun p => parse_qsl p.query)

/-- The `&_signature=<sig>` text appended by `_build_url`. -/
def signatureSuffix (sig : PyStr) : PyStr := "&_signature=".toList ++ sig

set_option maxRecDepth 1000000 in
/-- C4 (counterexample): as stated the claim fails when the path contains a
`#`: for `_build_url("/x#f")` everything after `#` is a fragment, the
injected `_username` lands in the fragment, the appended `&_signature=...`
extends the fragment too, and the produced URL contains zero `_signature`
query parameters rather than exactly one. -/
theorem C4_counterexample :
    (build_url demoClient "/x#f".toList [] none "GET".toList true).bind sigParamCount =
      .ok 0 ∧
    ¬(build_url demoClient "/x#f".toList [] none "GET".toList true).bind sigParamCount =
      .ok 1 := by
  refine ⟨by decide, by decide⟩

/-- C4 (amended): whenever the fully assembled URL `pre` (base joined with
path and the urlencoded parameters including the injected `_username`)
contains a `?`, contains no `#`, and has no pre-existing `_signature` query
parameter, the URL produced by `_build_url` is exactly `pre` with
`&_signature=<sig>` appended as the final query parameter, where `sig` is
the signature computed over `pre` (before appending); the produced URL
contains exactly one `_signature` query parameter. -/
theorem C4_exactly_one_signature
    (c : MotionEyeClient) (path : PyStr) (params : List (PyStr × PyStr))
    (data : Option PyStr) (method : PyStr) (admin : Bool) (pre sig : PyStr)
    (hjoin : urljoin c.url (path ++ '?' :: urlencode (dictSet params "_username".toList
      (if admin then c.admin_username else c.surveillance_username))) = .ok pre)
    (hsig : compute_signature method pre data (sha1HexOfStr
      (if admin then c.admin_password else c.surveillance_password)) = .ok sig)
    (hq : pre.contains '?' = true)
    (hnohash : pre.contains '#' = false)
    (hcount : sigParamCount pre = .ok 0) :
    build_url c path params data method admin = .ok (pre ++ signatureSuffix sig) ∧
    sigParamCount (pre ++ signatureSuffix sig) = .ok 1 ∧
    urlQueryPairs (pre ++ signatureSuffix sig) =
      (urlQueryPairs pre).map (fun l => l ++ [(sigName, sig)]) := by
  have hqm : '?' ∈ pre := mem_of_contains hq
  obtain ⟨P, Q, hsf⟩ : ∃ P Q, splitFirst '?' pre = some (P, Q) := by
    cases h : splitFirst '?' pre with
    | none => exact absurd hqm (mem_of_splitFirst_none h)
    | some pq => exact ⟨pq.1, pq.2, rfl⟩
  obtain ⟨hpre, hPq⟩ := splitFirst_some_spec hsf
  have hnh : '#' ∉ pre := fun hm => by
    have hc2 : pre.contains '#' = true := by simpa using hm
    rw [hc2] at hnohash
    exact absurd hnohash (by decide)
  have hhex := compute_signature_ok_hex hsig
  have hnhP : '#' ∉ P := fun hm => hnh (hpre ▸ List.mem_append_left _ hm)
  have hnhQ : '#' ∉ Q := fun hm =>
    hnh (hpre ▸ List.mem_append_right _ (List.mem_cons_of_mem _ hm))
  have hsfx : signatureSuffix sig = '&' :: (sigName ++ '=' :: sig) := rfl
  have hext : '#' ∉ Q ++ signatureSuffix sig := by
    intro hm
    rcases List.mem_append.mp hm with hm | hm
    · exact hnhQ hm
    · rw [hsfx] at hm
      rcases List.mem_cons.mp hm with hm | hm
      · simp at hm
      · rcases List.mem_append.mp hm with hm | hm
        · exact absurd hm (by decide)
        · rcases List.mem_cons.mp hm with hm | hm
          · simp at hm
          · exact absurd (hhex '#' hm) (by decide)
  have hu1 : urlsplit [] pre = (prefixParse [] P).map (fun pr =>
      ⟨pr.1, pr.2.1, pr.2.2, removeTabCrLf Q, removeTabCrLf []⟩) := by
    rw [show pre = P ++ '?' :: (Q ++ []) from by rw [hpre]; simp]
    exact urlsplit_landmark [] P Q [] [] hPq hnhP hnhQ (Or.inl ⟨rfl, rfl⟩)
  have hu2 : urlsplit [] (pre ++ signatureSuffix sig) = (prefixParse [] P).map (fun pr =>
      ⟨pr.1, pr.2.1, pr.2.2, removeTabCrLf (Q ++ signatureSuffix sig), removeTabCrLf []⟩) := by
    rw [show pre ++ signatureSuffix sig =
      P ++ '?' :: ((Q ++ signatureSuffix sig) ++ []) from by rw [hpre]; simp]
    exact urlsplit_landmark [] P (Q ++ signatureSuffix sig) [] [] hPq hnhP hext
      (Or.inl ⟨rfl, rfl⟩)
  have hrmsfx : removeTabCrLf (signatureSuffix sig) = signatureSuffix sig := by
    unfold removeTabCrLf
    apply List.filter_eq_self.mpr
    intro ch hch
    rw [hsfx] at hch
    rcases List.mem_cons.mp hch with rfl | hch
    · decide
    · rcases List.mem_append.mp hch with hch | hch
      · exact (show ∀ x ∈ sigName, (!isTabCrLf x) = true from by decide) ch hch
      · rcases List.mem_cons.mp hch with rfl | hch
        · decide
        · have hh := hhex ch hch
          cases htb : isTabCrLf ch with
          | false => rfl
          | true =>
            exfalso
            unfold isTabCrLf at htb
            rcases Bool.or_eq_true_iff.mp htb with htb2 | htb2
            · rcases Bool.or_eq_true_iff.mp htb2 with htb3 | htb3 <;>
                (first
                  | (rw [eq_of_beq htb3] at hh; exact absurd hh (by decide)))
            · rw [eq_of_beq htb2] at hh
              exact absurd hh (by decide)
  cases hpp : prefixParse [] P with
  | error e =>
    unfold sigParamCount at hcount
    rw [hu1, hpp] at hcount
    simp [Except.map] at hcount
  | ok pr =>
    have hq1 : urlsplit [] pre = .ok ⟨pr.1, pr.2.1, pr.2.2, removeTabCrLf Q, []⟩ := by
      rw [hu1, hpp]
      rfl
    have hq2 : urlsplit [] (pre ++ signatureSuffix sig) =
        .ok ⟨pr.1, pr.2.1, pr.2.2, removeTabCrLf Q ++ signatureSuffix sig, []⟩ := by
      rw [hu2, hpp]
      simp only [Except.map]
      rw [show removeTabCrLf (Q ++ signatureSuffix sig) =
        removeTabCrLf Q ++ signatureSuffix sig from by
          unfold removeTabCrLf
          rw [List.filter_append]
          unfold removeTabCrLf at hrmsfx
          rw [hrmsfx]]
      rfl
    have hpq : parse_qsl (removeTabCrLf Q ++ signatureSuffix sig) =
        parse_qsl (removeTabCrLf Q) ++ [(sigName, sig)] :=
      parse_qsl_append_sig _ sig hhex
    refine ⟨?_, ?_, ?_⟩
    · unfold build_url
      simp only []
      rw [hjoin]
      simp only []
      rw [hsig]
      simp only []
      unfold signatureSuffix
      rw [List.append_assoc]
    · unfold sigParamCount at hcount ⊢
      rw [hq2]
      rw [hq1] at hcount
      simp only [Except.map] at hcount ⊢
      simp only [Except.ok.injEq] at hcount
      rw [hpq, List.filter_append, List.length_append, hcount]
      rfl
    · unfold urlQueryPairs
      rw [hq1, hq2]
      simp only [Except.map]
      rw [hpq]

set_option maxRecDepth 1000000 in
/-- Witness for C4 (amended) at `demoClient` and path `/login`. -/
theorem C4_exactly_one_signature_witness :
    urljoin demoClient.url ("/login".toList ++ '?' :: urlencode (dictSet []
        "_username".toList (if true then demoClient.admin_username
          else demoClient.surveillance_username))) =
      .ok "http://host:8000/login?_username=admin".toList ∧
    compute_signature "GET".toList "http://host:8000/login?_username=admin".toList none
        (sha1HexOfStr (if true then demoClient.admin_password
          else demoClient.surveillance_password)) =
      .ok "bb30180e554d27a2835c70681e10421079bb82ea".toList ∧
    build_url demoClient "/login".toList [] none "GET".toList true =
      .ok ("http://host:8000/login?_username=admin".toList ++
        signatureSuffix "bb30180e554d27a2835c70681e10421079bb82ea".toList) ∧
    sigParamCount ("http://host:8000/login?_username=admin".toList ++
      signatureSuffix "bb30180e554d27a2835c70681e10421079bb82ea".toList) = .ok 1 :=
  ⟨by decide, by decide,
    (C4_exactly_one_signature demoClient "/login".toList [] none "GET".toList true
      "http://host:8000/login?_username=admin".toList
      "bb30180e554d27a2835c70681e10421079bb82ea".toList
      (by decide) (by decide) (by decide) (by decide) (by decide)).1,
    (C4_exactly_one_signature demoClient "/login".toList [] none "GET".toList true
      "http://host:8000/login?_username=admin".toList
      "bb30180e554d27a2835c70681e10421079bb82ea".toList
      (by decide) (by decide) (by decide) (by decide) (by decide)).2.1⟩
